import Mathlib

/-!
# blankmd virtual filesystem — formal model

A shallow embedding of the filesystem layer of the blankmd editor:
the flat-map store (`src/filesystem/store.ts`), the tree operations
(`src/filesystem/index.ts`, tree module), the migration step
(`src/filesystem/migration.ts`), the snapshot import/export
(`src/filesystem/snapshot.ts`) and the active-document coordinator
(`switchFile` in `src/filesystem/index.ts`).

JavaScript `Record<string, T>` objects are modelled as association lists
`List (String × T)` (string-keyed, insertion ordered, keys unique in every
state the store itself produces); `Object.values` is `List.map Prod.snd`.
`Date.now()` and `crypto.randomUUID()` results are passed in as explicit
parameters.  Unbounded recursion (`getDescendantIds`, the `uniqueName`
while-loop) is modelled with explicit fuel returning `Option`; `none`
means the source recursion did not complete within the given fuel.
-/

namespace Blankmd

/-! ## Association-list primitives (JS object semantics) -/

/-- Lookup by key: first entry wins, like a JS property read. -/
def alookup {α : Type} (m : List (String × α)) (k : String) : Option α :=
  match m with
  | [] => none
  | p :: rest => if p.1 = k then some p.2 else alookup rest k

/-- Whether a key is present (`k in obj`). -/
def hasKey {α : Type} (m : List (String × α)) (k : String) : Bool :=
  m.any (fun p => decide (p.1 = k))

/-- `toLowerCase()`, computed on the character list (the core library's
`String.map` recurses on positions and does not reduce in the kernel). -/
def strToLower (s : String) : String :=
  String.mk (s.data.map Char.toLower)

/-- `trim()`: drop whitespace from both ends. -/
def strTrim (s : String) : String :=
  String.mk
    (((s.data.dropWhile Char.isWhitespace).reverse.dropWhile
      Char.isWhitespace).reverse)

/-- JS property write `obj[k] = v`: update in place when the key exists,
append otherwise (insertion order preserved). -/
def upsert {α : Type} (m : List (String × α)) (k : String) (v : α) :
    List (String × α) :=
  if hasKey m k then m.map (fun p => if p.1 = k then (k, v) else p)
  else m ++ [(k, v)]

/-- JS `delete obj[k]`. -/
def removeKey {α : Type} (m : List (String × α)) (k : String) :
    List (String × α) :=
  m.filter (fun p => decide (p.1 ≠ k))

/-- `Array.includes` on a list of strings. -/
def listHas (l : List String) (x : String) : Bool :=
  l.any (fun y => decide (y = x))

/-! ## Data model (`src/types.ts` additions, shown in `design.md`) -/

inductive NodeType where
  | file
  | folder
deriving DecidableEq, Repr

/-- A node of the flat-map tree.  The source is a tagged union
(`FileNode | FolderNode`); we use one structure with a discriminant.
`updatedAt` is meaningful only for files and `collapsed` only for folders
(the source's objects simply lack the other field; `0` / `false` stand for
the absent field and are never read for the wrong discriminant). -/
structure TreeNode where
  id : String
  type : NodeType
  name : String
  parentId : Option String
  createdAt : Nat
  updatedAt : Nat
  collapsed : Bool
deriving DecidableEq, Repr

/-- The root aggregate (`FileSystemStore` in the source). -/
structure FileSystemStore where
  nodes : List (String × TreeNode)
  content : List (String × String)
  activeFileId : Option String
  sidebarWidth : Int
  sidebarOpen : Bool
deriving DecidableEq, Repr

def DEFAULT_STORE : FileSystemStore :=
  { nodes := [], content := [], activeFileId := none,
    sidebarWidth := 240, sidebarOpen := false }

/-! ## Persistent store methods (`src/filesystem/store.ts`)

`persist()` only serialises to localStorage and is invisible to the
in-memory state, so the store methods are pure state transformers here. -/

namespace FsStore

def getNode (st : FileSystemStore) (id : String) : Option TreeNode :=
  alookup st.nodes id

def getAllNodes (st : FileSystemStore) : List (String × TreeNode) :=
  st.nodes

def setNode (st : FileSystemStore) (node : TreeNode) : FileSystemStore :=
  { st with nodes := upsert st.nodes node.id node }

/-- `removeNode` deletes both the node and its content entry. -/
def removeNode (st : FileSystemStore) (id : String) : FileSystemStore :=
  { st with nodes := removeKey st.nodes id, content := removeKey st.content id }

/-- `getContent` returns the empty string for unknown ids (`?? ""`). -/
def getContent (st : FileSystemStore) (fileId : String) : String :=
  (alookup st.content fileId).getD ""

/-- `saveFileContent` writes the content and bumps the file's `updatedAt`. -/
def saveFileContent (st : FileSystemStore) (fileId text : String) (now : Nat) :
    FileSystemStore :=
  let content' := upsert st.content fileId text
  let nodes' :=
    match alookup st.nodes fileId with
    | some n =>
        if n.type = NodeType.file then
          upsert st.nodes fileId { n with updatedAt := now }
        else st.nodes
    | none => st.nodes
  { st with content := content', nodes := nodes' }

def getActiveFileId (st : FileSystemStore) : Option String :=
  st.activeFileId

def setActiveFileId (st : FileSystemStore) (id : Option String) :
    FileSystemStore :=
  { st with activeFileId := id }

def replaceState (_old newState : FileSystemStore) : FileSystemStore :=
  newState

end FsStore

/-! ## Tree operations (`tree` module inside `src/filesystem/index.ts`) -/

/-- The unsorted sibling filter
`Object.values(nodes).filter(n => n.parentId === parentId)`. -/
def childrenOf (nodes : List (String × TreeNode)) (parentId : Option String) :
    List TreeNode :=
  (nodes.map Prod.snd).filter (fun n => decide (n.parentId = parentId))

/-- The comparator of `sortNodes`: folders before files, then
case-insensitive alphabetical (the source's `localeCompare` with
`sensitivity: "base"` is modelled as ordering on `toLower`). -/
def nodeLe (a b : TreeNode) : Bool :=
  if a.type = b.type then decide ((strToLower a.name) ≤ (strToLower b.name))
  else decide (a.type = NodeType.folder)

def insertSorted (x : TreeNode) : List TreeNode → List TreeNode
  | [] => [x]
  | y :: ys => if nodeLe x y then x :: y :: ys else y :: insertSorted x ys

/-- `sortNodes`: a sort under `nodeLe` (only the resulting multiset matters
to the layer's logic, never the exact order). -/
def sortNodes (l : List TreeNode) : List TreeNode :=
  l.foldr insertSorted []

/-- `getChildren(parentId)`: filtered then sorted. -/
def getChildren (st : FileSystemStore) (parentId : Option String) :
    List TreeNode :=
  sortNodes (childrenOf st.nodes parentId)

/-- The recursion of `getDescendantIds`, made total with `fuel` bounding
the depth of the recursion tree (one unit per frame, for the walk into a
folder's children as well as along a sibling list); `none` means the
source recursion does not finish within that depth — on malformed cyclic
stores it never finishes for any fuel. -/
def descendAux (nodes : List (String × TreeNode)) :
    Nat → List TreeNode → Option (List String)
  | 0, _ => none
  | _ + 1, [] => some []
  | fuel + 1, c :: rest =>
    let subOpt : Option (List String) :=
      if c.type = NodeType.folder then
        descendAux nodes fuel (childrenOf nodes (some c.id))
      else some []
    match subOpt, descendAux nodes fuel rest with
    | some sub, some restIds => some (c.id :: (sub ++ restIds))
    | _, _ => none

/-- `getDescendantIds(folderId)`: run the walk with fuel
`2·|nodes| + 2`, enough for every store whose parent references form a
forest (the recursion tree is then at most `#nodes` deep along folder
edges plus the sibling-list positions). -/
def getDescendantIds (st : FileSystemStore) (folderId : String) :
    Option (List String) :=
  descendAux st.nodes (2 * st.nodes.length + 2)
    (childrenOf st.nodes (some folderId))

/-! ### Unique-name resolution -/

/-- Split a character list at its **last** `'.'`:
`some (stem, ext)` with `ext` starting at that dot, `none` when the string
contains no dot (this realises `lastIndexOf(".")` / `slice`). -/
def splitLastDot : List Char → Option (List Char × List Char)
  | [] => none
  | c :: rest =>
    match splitLastDot rest with
    | some (st, ex) => some (c :: st, ex)
    | none => if c = '.' then some ([], '.' :: rest) else none

/-- `stem`/`ext` of a base name, per the source's `includes(".")` /
`lastIndexOf(".")` computation. -/
def splitStemExt (baseName : String) : String × String :=
  match splitLastDot baseName.data with
  | some (st, ex) => (String.mk st, String.mk ex)
  | none => (baseName, "")

/-- The `while (names.has(...)) i++` loop of `uniqueName`, with fuel;
the source loop always terminates because `names` is finite and the
candidates are pairwise distinct. -/
def uniqueNameLoop (names : List String) (stem ext : String) :
    Nat → Nat → Option String
  | 0, _ => none
  | Nat.succ fuel, i =>
    let cand := stem ++ " " ++ toString i ++ ext
    if listHas names (strToLower cand) then uniqueNameLoop names stem ext fuel (i + 1)
    else some cand

/-- `uniqueName(baseName, parentId)`: return the base name unless it
collides case-insensitively with a sibling, else insert ` i` (i = 2, 3, …)
before the last extension until unique. -/
def uniqueName (st : FileSystemStore) (baseName : String)
    (parentId : Option String) : Option String :=
  let siblings := getChildren st parentId
  let names := siblings.map (fun n => (strToLower n.name))
  if ¬ listHas names (strToLower baseName) then some baseName
  else
    let se := splitStemExt baseName
    uniqueNameLoop names se.1 se.2 (names.length + 1) 2

/-! ### Create / update / delete -/

/-- `createFile(parentId, name?)`; `id` models `crypto.randomUUID()` and
`now` models `Date.now()`. -/
def createFile (st : FileSystemStore) (parentId : Option String)
    (name : Option String) (id : String) (now : Nat) :
    Option (FileSystemStore × TreeNode) :=
  match uniqueName st (name.getD "Untitled.md") parentId with
  | none => none
  | some fileName =>
    let node : TreeNode :=
      { id := id, type := NodeType.file, name := fileName,
        parentId := parentId, createdAt := now, updatedAt := now,
        collapsed := false }
    let st1 := FsStore.setNode st node
    let st2 := FsStore.saveFileContent st1 node.id "" now
    some (st2, node)

/-- `createFolder(parentId, name?)`. -/
def createFolder (st : FileSystemStore) (parentId : Option String)
    (name : Option String) (id : String) (now : Nat) :
    Option (FileSystemStore × TreeNode) :=
  match uniqueName st (name.getD "New Folder") parentId with
  | none => none
  | some folderName =>
    let node : TreeNode :=
      { id := id, type := NodeType.folder, name := folderName,
        parentId := parentId, createdAt := now, updatedAt := 0,
        collapsed := false }
    some (FsStore.setNode st node, node)

/-- `renameNode(id, newName)`: no-op on blank input; re-resolve uniqueness
(excluding the node itself) on collision; bump `updatedAt` for files. -/
def renameNode (st : FileSystemStore) (id newName : String) (now : Nat) :
    Option FileSystemStore :=
  match alookup st.nodes id with
  | none => some st
  | some node =>
    let trimmed := (strTrim newName)
    if trimmed = "" then some st
    else
      let siblings := (getChildren st node.parentId).filter
        (fun n => decide (n.id ≠ id))
      let names := siblings.map (fun n => (strToLower n.name))
      let finalNameOpt :=
        if listHas names (strToLower trimmed) then uniqueName st trimmed node.parentId
        else some trimmed
      match finalNameOpt with
      | none => none
      | some finalName =>
        let node' :=
          if node.type = NodeType.file then
            { node with name := finalName, updatedAt := now }
          else { node with name := finalName }
        some (FsStore.setNode st node')

/-- `moveNode(id, newParentId)`: reject (no-op) moving a folder into itself
or one of its descendants; bump `updatedAt` for files. -/
def moveNode (st : FileSystemStore) (id : String)
    (newParentId : Option String) (now : Nat) : Option FileSystemStore :=
  match alookup st.nodes id with
  | none => some st
  | some node =>
    match node.type, newParentId with
    | NodeType.folder, some t =>
      match getDescendantIds st id with
      | none => none
      | some descendantIds =>
        if t = id ∨ listHas descendantIds t then some st
        else some (FsStore.setNode st { node with parentId := some t })
    | NodeType.folder, none =>
      some (FsStore.setNode st { node with parentId := none })
    | NodeType.file, _ =>
      some (FsStore.setNode st
        { node with parentId := newParentId, updatedAt := now })

/-- `toggleFolder(id)`. -/
def toggleFolder (st : FileSystemStore) (id : String) : FileSystemStore :=
  match alookup st.nodes id with
  | some node =>
    if node.type = NodeType.folder then
      FsStore.setNode st { node with collapsed := ¬ node.collapsed }
    else st
  | none => st

/-- Fold of `fsStore.removeNode` over the ids collected by `deleteNode`. -/
def removeMany (st : FileSystemStore) (l : List String) : FileSystemStore :=
  l.foldl FsStore.removeNode st

/-- The file nodes remaining in a store
(`Object.values(nodes).filter(n => n.type === "file")`). -/
def filesOf (st : FileSystemStore) : List TreeNode :=
  (st.nodes.map Prod.snd).filter (fun n => decide (n.type = NodeType.file))

/-- The active-file repair step at the end of `deleteNode`
(`if (activeId && idsToRemove.includes(activeId)) ...`): a JS string is
truthy iff non-empty. -/
def repairActive (st1 : FileSystemStore) (idsToRemove : List String) :
    FileSystemStore :=
  match st1.activeFileId with
  | some activeId =>
    if activeId ≠ "" ∧ listHas idsToRemove activeId then
      FsStore.setActiveFileId st1 ((filesOf st1).head?.map (·.id))
    else st1
  | none => st1

/-- `deleteNode(id)`: remove the node and, for folders, every descendant;
return the removed ids; then repair the active file. -/
def deleteNode (st : FileSystemStore) (id : String) :
    Option (FileSystemStore × List String) :=
  match alookup st.nodes id with
  | none => some (st, [])
  | some node =>
    let descOpt : Option (List String) :=
      if node.type = NodeType.folder then getDescendantIds st id else some []
    match descOpt with
    | none => none
    | some ds =>
      let idsToRemove := id :: ds
      let st1 := removeMany st idsToRemove
      some (repairActive st1 idsToRemove, idsToRemove)

/-! ## Active-document coordinator (`switchFile` in
`src/filesystem/index.ts`)

The editing surface is external; its observable state here is the single
serialized content string it holds. -/

/-- Coordinator state: the live store plus the external editor surface's
current serialized content. -/
structure SystemState where
  store : FileSystemStore
  editorContent : String
deriving DecidableEq, Repr

/-- The content-save handler installed by `initFilesystem`
(`src/src/filesystem/index.ts`): write the serialized content to the
currently active file when the active id is truthy (non-empty). -/
def contentSaveHandler (st : FileSystemStore) (text : String) (now : Nat) :
    FileSystemStore :=
  match st.activeFileId with
  | some activeId =>
    if activeId ≠ "" then FsStore.saveFileContent st activeId text now else st
  | none => st

/-- Modelled from the spec: `forceSave` lives in the editor module, which is
not part of the sources here (only its export list and callers are).  Per
the spec it forces "an immediate synchronous flush of the editor's current
content to the currently-active File — bypassing any debounce", i.e. it
invokes the registered save handler with the editor's current serialized
content. -/
def forceSave (s : SystemState) (now : Nat) : SystemState :=
  { s with store := contentSaveHandler s.store s.editorContent now }

/-- Modelled from the spec (and the `design.md` sketch in the sources):
`setEditorContent` replaces the editor surface's content entirely; an empty
string clears it. -/
def setEditorContent (s : SystemState) (text : String) : SystemState :=
  { s with editorContent := text }

/-- `switchFile(newId)`: no-op when `newId` is the current active id; else
flush (1), update `activeFileId` (2), load the new file's content (3). -/
def switchFile (s : SystemState) (newId : String) (now : Nat) : SystemState :=
  if s.store.activeFileId = some newId then s
  else
    let s1 := forceSave s now
    let st2 := FsStore.setActiveFileId s1.store (some newId)
    let newContent := FsStore.getContent st2 newId
    setEditorContent { s1 with store := st2 } newContent

/-- `getActiveFile()`. -/
def getActiveFile (s : SystemState) : Option String :=
  s.store.activeFileId

/-! ## Migration (`src/filesystem/migration.ts`)

`localStorage` reads are passed in: `existingRaw` is the filesystem key's
raw string (if present), `parseStore` stands for `JSON.parse` succeeding
with a value of the store shape, `legacy` is the legacy content key. -/

def migrateIfNeeded (existingRaw : Option String)
    (parseStore : String → Option FileSystemStore)
    (legacy : Option String) (welcomeFileId : String) (now : Nat) :
    FileSystemStore :=
  let fresh : FileSystemStore :=
    { nodes := [(welcomeFileId,
        { id := welcomeFileId, type := NodeType.file,
          name := match legacy with
                  | some s => if s ≠ "" then "My Notes.md" else "Untitled.md"
                  | none => "Untitled.md",
          parentId := none, createdAt := now, updatedAt := now,
          collapsed := false })],
      content := [(welcomeFileId, legacy.getD "")],
      activeFileId := some welcomeFileId,
      sidebarWidth := 240, sidebarOpen := false }
  match existingRaw with
  | some raw =>
    if raw ≠ "" then
      match parseStore raw with
      | some st => st        -- parsed existing store: pass through
      | none => fresh        -- corrupted: fall through to a fresh store
    else fresh
  | none => fresh

/-! ## Snapshot (`src/filesystem/snapshot.ts`)

Parsed JSON values are modelled by `JsonValue`; a JS property read is
`getField` (`none` = `undefined`, also for reads on non-objects). -/

inductive JsonValue where
  | null
  | bool (b : Bool)
  | num (n : Int)
  | str (s : String)
  | arr (elems : List JsonValue)
  | obj (fields : List (String × JsonValue))

/-- JS property read `v[name]`; arrays have no named properties, reads on
primitives yield `undefined`. -/
def getField : JsonValue → String → Option JsonValue
  | JsonValue.obj fields, name => alookup fields name
  | _, _ => none

/-- JS truthiness of a (possibly `undefined`) value. -/
def jsTruthy : Option JsonValue → Bool
  | none => false
  | some JsonValue.null => false
  | some (JsonValue.bool b) => b
  | some (JsonValue.num n) => decide (n ≠ 0)
  | some (JsonValue.str s) => decide (s ≠ "")
  | some (JsonValue.arr _) => true
  | some (JsonValue.obj _) => true

/-- `typeof v === "object" && v !== null` — true for JS objects and arrays
(a JSON array also has `typeof` `"object"`). -/
def isNonNullObject : Option JsonValue → Bool
  | some (JsonValue.obj _) => true
  | some (JsonValue.arr _) => true
  | _ => false

/-- `Object.values(v)` for the values the validator iterates. -/
def jsValues : Option JsonValue → List JsonValue
  | some (JsonValue.obj fields) => fields.map Prod.snd
  | some (JsonValue.arr elems) => elems
  | _ => []

/-- `s.activeFileId !== null && typeof s.activeFileId !== "string"`,
positively: the field is `null` or a string. -/
def activeIdOk : Option JsonValue → Bool
  | some JsonValue.null => true
  | some (JsonValue.str _) => true
  | _ => false

/-- `typeof s.sidebarWidth === "number"`. -/
def widthOk : Option JsonValue → Bool
  | some (JsonValue.num _) => true
  | _ => false

/-- `typeof s.sidebarOpen === "boolean"`. -/
def openOk : Option JsonValue → Bool
  | some (JsonValue.bool _) => true
  | _ => false

/-- `typeof n.id === "string"`. -/
def idFieldOk (v : JsonValue) : Bool :=
  match getField v "id" with
  | some (JsonValue.str _) => true
  | _ => false

/-- `n.type === "file" || n.type === "folder"`. -/
def typeFieldOk (v : JsonValue) : Bool :=
  match getField v "type" with
  | some (JsonValue.str s) => decide (s = "file") || decide (s = "folder")
  | _ => false

/-- `typeof n.name === "string"`. -/
def nameFieldOk (v : JsonValue) : Bool :=
  match getField v "name" with
  | some (JsonValue.str _) => true
  | _ => false

/-- The per-node checks of `isValidStore`: truthy object with a string
`id`, a `type` of `"file"`/`"folder"`, and a string `name`. -/
def nodeShapeOk (v : JsonValue) : Bool :=
  isNonNullObject (some v) && idFieldOk v && typeFieldOk v && nameFieldOk v

/-- `isValidStore(obj)` from `src/filesystem/snapshot.ts`, on the
(possibly missing) `store` field of the parsed snapshot. -/
def isValidStore (obj : Option JsonValue) : Bool :=
  match obj with
  | none => false
  | some v =>
    -- `if (!obj || typeof obj !== "object") return false`
    jsTruthy (some v) && isNonNullObject (some v) &&
    isNonNullObject (getField v "nodes") &&
    isNonNullObject (getField v "content") &&
    activeIdOk (getField v "activeFileId") &&
    widthOk (getField v "sidebarWidth") &&
    openOk (getField v "sidebarOpen") &&
    (jsValues (getField v "nodes")).all nodeShapeOk

/-- Field read on the possibly-missing `store` record. -/
def fieldOf (sf : Option JsonValue) (name : String) : Option JsonValue :=
  match sf with
  | some v => getField v name
  | none => none

/-- The spec's list of node-value validation failures: a node value
"lacking a string id, a type of file or folder, or a string name" (a
non-object value lacks all three). -/
def claimedNodeBad (v : JsonValue) : Bool :=
  !(idFieldOk v) || !(typeFieldOk v) || !(nameFieldOk v)

/-- The spec's list of store validation failures, stated on the imported
record's `store` field: "nodes or content missing or not a mapping,
activeFileId neither null nor a string, sidebarWidth not a number,
sidebarOpen not a boolean, any node value lacking a string id, a type of
file or folder, or a string name".  ("Mapping" is what the source's
`typeof === "object" && !== null` accepts: a JSON object — or array,
whose `typeof` is also `"object"`.) -/
def claimedInvalidStore (sf : Option JsonValue) : Bool :=
  !(isNonNullObject (fieldOf sf "nodes")) ||
  !(isNonNullObject (fieldOf sf "content")) ||
  !(activeIdOk (fieldOf sf "activeFileId")) ||
  !(widthOk (fieldOf sf "sidebarWidth")) ||
  !(openOk (fieldOf sf "sidebarOpen")) ||
  (jsValues (fieldOf sf "nodes")).any claimedNodeBad

/-! Decoding a validated JSON store back into the typed model.  The source
needs no decoding step (the parsed object *is* the store); values the
duck-typed validator lets through that do not fit the typed model (e.g.
nodes without timestamps) fall outside this embedding and decode to
`none`. -/

def decodeNode (v : JsonValue) : Option TreeNode :=
  match getField v "id", getField v "type", getField v "name" with
  | some (JsonValue.str i), some (JsonValue.str ty), some (JsonValue.str nm) =>
    let pid : Option (Option String) :=
      match getField v "parentId" with
      | some JsonValue.null => some none
      | some (JsonValue.str p) => some (some p)
      | none => some none
      | _ => none
    let natOf : Option JsonValue → Option Nat := fun j =>
      match j with
      | some (JsonValue.num n) => if n < 0 then none else some n.toNat
      | none => some 0
      | _ => none
    match pid, natOf (getField v "createdAt"), natOf (getField v "updatedAt"),
        (match getField v "collapsed" with
         | some (JsonValue.bool b) => some b
         | none => some false
         | _ => none) with
    | some p, some ca, some ua, some co =>
      if ty = "file" then
        some { id := i, type := NodeType.file, name := nm, parentId := p,
               createdAt := ca, updatedAt := ua, collapsed := co }
      else if ty = "folder" then
        some { id := i, type := NodeType.folder, name := nm, parentId := p,
               createdAt := ca, updatedAt := ua, collapsed := co }
      else none
    | _, _, _, _ => none
  | _, _, _ => none

def decodeEntries {α : Type} (dec : JsonValue → Option α) :
    List (String × JsonValue) → Option (List (String × α))
  | [] => some []
  | (k, v) :: rest =>
    match dec v, decodeEntries dec rest with
    | some a, some r => some ((k, a) :: r)
    | _, _ => none

def decodeStore (v : JsonValue) : Option FileSystemStore :=
  match v with
  | JsonValue.obj _ =>
    match getField v "nodes", getField v "content" with
    | some (JsonValue.obj nodeFields), some (JsonValue.obj contentFields) =>
      let nodesOpt := decodeEntries decodeNode nodeFields
      let contentOpt := decodeEntries
        (fun c => match c with
                  | JsonValue.str s => some s
                  | _ => none) contentFields
      let activeOpt : Option (Option String) :=
        match getField v "activeFileId" with
        | some JsonValue.null => some none
        | some (JsonValue.str s) => some (some s)
        | _ => none
      match nodesOpt, contentOpt, activeOpt,
          getField v "sidebarWidth", getField v "sidebarOpen" with
      | some ns, some cs, some act,
          some (JsonValue.num w), some (JsonValue.bool o) =>
        some { nodes := ns, content := cs, activeFileId := act,
               sidebarWidth := w, sidebarOpen := o }
      | _, _, _, _, _ => none
    | _, _ => none
  | _ => none

/-- The observable outcome of an `importSnapshot` run. -/
inductive ImportOutcome where
  /-- the `catch` branch: `alert("Failed to read snapshot file.")` -/
  | readFailure
  /-- `alert("Invalid snapshot file. ...")` -/
  | invalidFormat
  /-- the user declined the destructive-action confirmation -/
  | cancelled
  /-- `fsStore.replaceState(snapshot.store)` ran and `onComplete` fired -/
  | replaced
  /-- accepted by the validator but outside the typed store model -/
  | undecodable
deriving DecidableEq, Repr

/-- Whether a parsed JSON value is the JS `null` (property access on it
throws). -/
def isNullJson : JsonValue → Bool
  | JsonValue.null => true
  | _ => false

/-- The import flow of `importSnapshot` after the file has been read:
`parsed` is `none` when `JSON.parse` threw (caught → read-failure alert);
`JSON.parse("null")` yields `null`, whose `.version` read throws (also
caught).  Otherwise: reject unless `snapshot.version` is truthy and
`isValidStore(snapshot.store)`; then ask for confirmation; then replace
the whole store. -/
def importSnapshotModel (current : FileSystemStore)
    (parsed : Option JsonValue) (confirmed : Bool) :
    FileSystemStore × ImportOutcome :=
  match parsed with
  | none => (current, ImportOutcome.readFailure)
  | some j =>
    if isNullJson j then (current, ImportOutcome.readFailure)
    else if ¬ (jsTruthy (getField j "version") &&
        isValidStore (getField j "store"))
    then (current, ImportOutcome.invalidFormat)
    else if ¬ confirmed then (current, ImportOutcome.cancelled)
    else
      match (getField j "store").bind decodeStore with
      | some newStore =>
        (FsStore.replaceState current newStore, ImportOutcome.replaced)
      | none => (current, ImportOutcome.undecodable)

/-! ## Invariants and well-formedness -/

/-- Store states the persistence layer itself produces: node keys are
unique, and every node sits under its own id (`nodes[node.id] = node`). -/
def WF (st : FileSystemStore) : Prop :=
  (st.nodes.map Prod.fst).Nodup ∧ ∀ p ∈ st.nodes, p.2.id = p.1

instance (st : FileSystemStore) : Decidable (WF st) := by
  unfold WF; infer_instance

/-- Sibling-name uniqueness: distinct nodes under the same parent never
have case-insensitively equal names. -/
def SiblingsUnique (st : FileSystemStore) : Prop :=
  ∀ p ∈ st.nodes, ∀ q ∈ st.nodes,
    p.1 ≠ q.1 → p.2.parentId = q.2.parentId →
    (strToLower p.2.name) ≠ (strToLower q.2.name)

instance (st : FileSystemStore) : Decidable (SiblingsUnique st) := by
  unfold SiblingsUnique; infer_instance

/-- Key `k` denotes an existing file node. -/
def isFileEntry (st : FileSystemStore) (k : String) : Prop :=
  ∃ n, alookup st.nodes k = some n ∧ n.type = NodeType.file

instance (st : FileSystemStore) (k : String) : Decidable (isFileEntry st k) :=
  match h : alookup st.nodes k with
  | some n =>
    if ht : n.type = NodeType.file then isTrue ⟨n, h, ht⟩
    else isFalse (fun ⟨m, hm, hmt⟩ => ht (by rw [h] at hm; cases hm; exact hmt))
  | none => isFalse (fun ⟨m, hm, _⟩ => by rw [h] at hm; cases hm)

/-- "No orphaned content": `content` has an entry for exactly the file ids
present in `nodes`. -/
def ContentInv (st : FileSystemStore) : Prop :=
  (∀ p ∈ st.content, isFileEntry st p.1) ∧
  (∀ q ∈ st.nodes, q.2.type = NodeType.file →
    (alookup st.content q.1).isSome = true)

instance (st : FileSystemStore) : Decidable (ContentInv st) := by
  unfold ContentInv; infer_instance

/-- Termination of the `getDescendantIds` walk from `folderId`: some fuel
(recursion depth) suffices. -/
def DescTerminates (st : FileSystemStore) (folderId : String) : Prop :=
  ∃ fuel, (descendAux st.nodes fuel (childrenOf st.nodes (some folderId))).isSome

/-- `c` is a folder child of `p` in the store — the edge the
`getDescendantIds` recursion follows. -/
def folderChild (st : FileSystemStore) (c p : String) : Prop :=
  ∃ n, n ∈ childrenOf st.nodes (some p) ∧ n.type = NodeType.folder ∧ n.id = c

/-! ## Operation sequences -/

/-- The public mutating tree operations, with their `Date.now()` /
`crypto.randomUUID()` inputs made explicit. -/
inductive FsOp where
  | mkFile (parentId : Option String) (name : Option String)
      (id : String) (now : Nat)
  | mkFolder (parentId : Option String) (name : Option String)
      (id : String) (now : Nat)
  | rename (id : String) (newName : String) (now : Nat)
  | move (id : String) (newParentId : Option String) (now : Nat)
  | removeTree (id : String)
  | saveContent (fileId : String) (text : String) (now : Nat)
deriving DecidableEq, Repr

def FsOp.isCreateOrRename : FsOp → Bool
  | FsOp.mkFile _ _ _ _ => true
  | FsOp.mkFolder _ _ _ _ => true
  | FsOp.rename _ _ _ => true
  | _ => false

def applyOp (st : FileSystemStore) : FsOp → Option FileSystemStore
  | FsOp.mkFile parentId name id now =>
    (createFile st parentId name id now).map Prod.fst
  | FsOp.mkFolder parentId name id now =>
    (createFolder st parentId name id now).map Prod.fst
  | FsOp.rename id newName now => renameNode st id newName now
  | FsOp.move id newParentId now => moveNode st id newParentId now
  | FsOp.removeTree id => (deleteNode st id).map Prod.fst
  | FsOp.saveContent fileId text now =>
    some (FsStore.saveFileContent st fileId text now)

def applyOps (st : FileSystemStore) : List FsOp → Option FileSystemStore
  | [] => some st
  | op :: rest =>
    match applyOp st op with
    | none => none
    | some st' => applyOps st' rest

/-! ## Concrete stores used by the example theorems -/

/-- Folder `f` with one file child `c`. -/
def c2folder : TreeNode :=
  { id := "f", type := NodeType.folder, name := "F", parentId := none,
    createdAt := 0, updatedAt := 0, collapsed := false }

def c2file : TreeNode :=
  { id := "c", type := NodeType.file, name := "c.md", parentId := some "f",
    createdAt := 0, updatedAt := 0, collapsed := false }

def c2store : FileSystemStore :=
  { nodes := [("f", c2folder), ("c", c2file)], content := [("c", "body")],
    activeFileId := some "c", sidebarWidth := 240, sidebarOpen := false }

def c2deleted : FileSystemStore :=
  { nodes := [], content := [], activeFileId := none,
    sidebarWidth := 240, sidebarOpen := false }

/-- Folder `p` with one folder child `q`. -/
def c4outer : TreeNode :=
  { id := "p", type := NodeType.folder, name := "P", parentId := none,
    createdAt := 0, updatedAt := 0, collapsed := false }

def c4inner : TreeNode :=
  { id := "q", type := NodeType.folder, name := "Q", parentId := some "p",
    createdAt := 0, updatedAt := 0, collapsed := false }

def c4store : FileSystemStore :=
  { nodes := [("p", c4outer), ("q", c4inner)], content := [],
    activeFileId := none, sidebarWidth := 240, sidebarOpen := false }

/-- Two files `a`, `b`; `a` is active and the editor holds unsaved edits. -/
def c1fileA : TreeNode :=
  { id := "a", type := NodeType.file, name := "a.md", parentId := none,
    createdAt := 0, updatedAt := 0, collapsed := false }

def c1fileB : TreeNode :=
  { id := "b", type := NodeType.file, name := "b.md", parentId := none,
    createdAt := 0, updatedAt := 0, collapsed := false }

def c1sys : SystemState :=
  { store := { nodes := [("a", c1fileA), ("b", c1fileB)],
               content := [("a", "A0"), ("b", "B0")],
               activeFileId := some "a",
               sidebarWidth := 240, sidebarOpen := false },
    editorContent := "A1" }

/-- A store whose active file has the empty string as id (importable:
the snapshot validator accepts any string id), plus a second file. -/
def ce1fileE : TreeNode :=
  { id := "", type := NodeType.file, name := "e.md", parentId := none,
    createdAt := 0, updatedAt := 0, collapsed := false }

def ce1fileB : TreeNode :=
  { id := "b", type := NodeType.file, name := "b.md", parentId := none,
    createdAt := 0, updatedAt := 0, collapsed := false }

def ce1sys : SystemState :=
  { store := { nodes := [("", ce1fileE), ("b", ce1fileB)],
               content := [("", "old"), ("b", "bee")],
               activeFileId := some "",
               sidebarWidth := 240, sidebarOpen := false },
    editorContent := "edited" }

def ce3store : FileSystemStore :=
  { nodes := [("", ce1fileE), ("b", ce1fileB)],
    content := [("", "old"), ("b", "bee")],
    activeFileId := some "",
    sidebarWidth := 240, sidebarOpen := false }

def ce3deleted : FileSystemStore :=
  { nodes := [("b", ce1fileB)], content := [("b", "bee")],
    activeFileId := some "",
    sidebarWidth := 240, sidebarOpen := false }

/-- Store for the active-repair witness: one folder `d` (active file `x`
inside it) and one file `y` outside. -/
def c3folderD : TreeNode :=
  { id := "d", type := NodeType.folder, name := "D", parentId := none,
    createdAt := 0, updatedAt := 0, collapsed := false }

def c3fileX : TreeNode :=
  { id := "x", type := NodeType.file, name := "x.md", parentId := some "d",
    createdAt := 0, updatedAt := 0, collapsed := false }

def c3fileY : TreeNode :=
  { id := "y", type := NodeType.file, name := "y.md", parentId := none,
    createdAt := 0, updatedAt := 0, collapsed := false }

def c3store : FileSystemStore :=
  { nodes := [("d", c3folderD), ("x", c3fileX), ("y", c3fileY)],
    content := [("x", "ex"), ("y", "wye")],
    activeFileId := some "x",
    sidebarWidth := 240, sidebarOpen := false }

def c3afterDelete : FileSystemStore :=
  { nodes := [("y", c3fileY)], content := [("y", "wye")],
    activeFileId := some "y",
    sidebarWidth := 240, sidebarOpen := false }

/-- Store for the file-switch witness with an id that does not exist. -/
def c10sys : SystemState :=
  { store := { nodes := [("a", c1fileA)], content := [("a", "A0")],
               activeFileId := some "a",
               sidebarWidth := 240, sidebarOpen := false },
    editorContent := "A1" }

/-- Two folders that are each other's parent: a malformed store on which
the `getDescendantIds` recursion never finishes. -/
def cycFolderA : TreeNode :=
  { id := "A", type := NodeType.folder, name := "A", parentId := some "B",
    createdAt := 0, updatedAt := 0, collapsed := false }

def cycFolderB : TreeNode :=
  { id := "B", type := NodeType.folder, name := "B", parentId := some "A",
    createdAt := 0, updatedAt := 0, collapsed := false }

def cycStore : FileSystemStore :=
  { nodes := [("A", cycFolderA), ("B", cycFolderB)], content := [],
    activeFileId := none, sidebarWidth := 240, sidebarOpen := false }

/-- Folder `p` already containing `Untitled.md` (name-collision example). -/
def c5folderP : TreeNode :=
  { id := "p", type := NodeType.folder, name := "P", parentId := none,
    createdAt := 0, updatedAt := 0, collapsed := false }

def c5untitled : TreeNode :=
  { id := "u", type := NodeType.file, name := "Untitled.md",
    parentId := some "p", createdAt := 0, updatedAt := 0, collapsed := false }

def c5store : FileSystemStore :=
  { nodes := [("p", c5folderP), ("u", c5untitled)], content := [("u", "")],
    activeFileId := some "u", sidebarWidth := 240, sidebarOpen := false }

def c5newFile : TreeNode :=
  { id := "new", type := NodeType.file, name := "Untitled 2.md",
    parentId := some "p", createdAt := 7, updatedAt := 7, collapsed := false }

def c5after : FileSystemStore :=
  { nodes := [("p", c5folderP), ("u", c5untitled), ("new", c5newFile)],
    content := [("u", ""), ("new", "")],
    activeFileId := some "u", sidebarWidth := 240, sidebarOpen := false }

/-- A parsed snapshot record whose `store` lacks the `content` field. -/
def c7json : JsonValue :=
  JsonValue.obj [("version", JsonValue.num 1),
    ("store", JsonValue.obj [("nodes", JsonValue.obj [])])]

/-- A snapshot that passes `isValidStore` yet carries a content entry for
a file id that is not in `nodes`. -/
def c8orphanStoreJson : JsonValue :=
  JsonValue.obj [("nodes", JsonValue.obj []),
    ("content", JsonValue.obj [("x", JsonValue.str "hi")]),
    ("activeFileId", JsonValue.null),
    ("sidebarWidth", JsonValue.num 240),
    ("sidebarOpen", JsonValue.bool false)]

def c8snapshotJson : JsonValue :=
  JsonValue.obj [("version", JsonValue.num 1),
    ("store", c8orphanStoreJson)]

def c8imported : FileSystemStore :=
  { nodes := [], content := [("x", "hi")], activeFileId := none,
    sidebarWidth := 240, sidebarOpen := false }

/-! ## Lemmas: association-list primitives -/

theorem hasKey_eq_true_iff {α : Type} (m : List (String × α)) (k : String) :
    hasKey m k = true ↔ k ∈ m.map Prod.fst := by
  simp only [hasKey, List.any_eq_true, decide_eq_true_eq, List.mem_map]

theorem hasKey_eq_false_iff {α : Type} (m : List (String × α)) (k : String) :
    hasKey m k = false ↔ k ∉ m.map Prod.fst := by
  rw [← Bool.not_eq_true, not_iff_not]
  exact hasKey_eq_true_iff m k

theorem alookup_eq_none_of_not_hasKey {α : Type} {m : List (String × α)}
    {k : String} (h : hasKey m k = false) : alookup m k = none := by
  induction m with
  | nil => rfl
  | cons p rest ih =>
    rw [hasKey_eq_false_iff] at h
    simp only [List.map_cons, List.mem_cons, not_or] at h
    have hne : p.1 ≠ k := fun he => h.1 he.symm
    rw [alookup, if_neg hne]
    exact ih (by rw [hasKey_eq_false_iff]; exact h.2)

theorem alookup_mem {α : Type} {m : List (String × α)} {k : String} {v : α}
    (h : alookup m k = some v) : (k, v) ∈ m := by
  induction m with
  | nil => cases h
  | cons p rest ih =>
    by_cases hk : p.1 = k
    · simp only [alookup, if_pos hk] at h
      cases h
      obtain ⟨p1, p2⟩ := p
      cases hk
      exact List.mem_cons_self _ _
    · simp only [alookup, if_neg hk] at h
      exact List.mem_cons_of_mem _ (ih h)

theorem mem_alookup {α : Type} {m : List (String × α)} {k : String} {v : α}
    (hmem : (k, v) ∈ m) (hnd : (m.map Prod.fst).Nodup) :
    alookup m k = some v := by
  induction m with
  | nil => cases hmem
  | cons p rest ih =>
    simp only [List.map_cons, List.nodup_cons] at hnd
    rcases List.mem_cons.mp hmem with h | h
    · cases h; simp [alookup]
    · have hne : p.1 ≠ k := by
        intro he
        exact hnd.1 (he ▸ List.mem_map.mpr ⟨(k, v), h, rfl⟩)
      simp only [alookup, if_neg hne]
      exact ih h hnd.2

theorem alookup_isSome_iff {α : Type} (m : List (String × α)) (k : String) :
    (alookup m k).isSome = true ↔ k ∈ m.map Prod.fst := by
  induction m with
  | nil => simp [alookup]
  | cons p rest ih =>
    by_cases hk : p.1 = k
    · simp [alookup, if_pos hk, hk.symm]
    · simp only [alookup, if_neg hk, List.map_cons, List.mem_cons, ih]
      constructor
      · exact Or.inr
      · rintro (h | h)
        · exact absurd h.symm hk
        · exact h

theorem alookup_append {α : Type} (m₁ m₂ : List (String × α)) (k : String) :
    alookup (m₁ ++ m₂) k =
      match alookup m₁ k with
      | some v => some v
      | none => alookup m₂ k := by
  induction m₁ with
  | nil => simp [alookup]
  | cons p rest ih =>
    by_cases hk : p.1 = k
    · simp [alookup, if_pos hk]
    · simpa [alookup, if_neg hk] using ih

theorem alookup_mapUpdate {α : Type} (m : List (String × α)) (k : String)
    (v : α) (k' : String) :
    alookup (m.map (fun p => if p.1 = k then (k, v) else p)) k' =
      if k' = k then (if hasKey m k then some v else none)
      else alookup m k' := by
  induction m with
  | nil => simp [alookup, hasKey]
  | cons p rest ih =>
    by_cases hpk : p.1 = k
    · have hhk : hasKey (p :: rest) k = true := by
        rw [hasKey_eq_true_iff]; exact List.mem_cons.mpr (Or.inl hpk.symm)
      by_cases hk' : k' = k
      · subst hk'
        simp [alookup, if_pos hpk, hhk]
      · simp only [List.map_cons, if_pos hpk, alookup,
          if_neg (fun h : k = k' => hk' h.symm), ih, if_neg hk']
        rw [if_neg (hpk ▸ fun h : p.1 = k' => hk' (hpk ▸ h).symm)]
    · by_cases hpk' : p.1 = k'
      · have hk' : k' ≠ k := fun h => hpk (hpk'.trans h)
        simp [alookup, if_neg hpk, if_pos hpk', if_neg hk']
      · simp only [List.map_cons, if_neg hpk, alookup, if_neg hpk', ih]
        by_cases hk' : k' = k
        · subst hk'
          have : hasKey (p :: rest) k' = hasKey rest k' := by
            simp [hasKey, List.any_cons, hpk]
          simp [this]
        · simp [if_neg hk']

theorem alookup_upsert_self {α : Type} (m : List (String × α)) (k : String)
    (v : α) : alookup (upsert m k v) k = some v := by
  unfold upsert
  by_cases h : hasKey m k
  · rw [if_pos h, alookup_mapUpdate, if_pos rfl, if_pos h]
  · rw [if_neg h, alookup_append,
      alookup_eq_none_of_not_hasKey (Bool.eq_false_iff.mpr h)]
    simp [alookup]

theorem alookup_upsert_ne {α : Type} (m : List (String × α)) {k k' : String}
    (v : α) (h : k' ≠ k) : alookup (upsert m k v) k' = alookup m k' := by
  unfold upsert
  by_cases hh : hasKey m k
  · rw [if_pos hh, alookup_mapUpdate, if_neg h]
  · rw [if_neg hh, alookup_append]
    cases hv : alookup m k' with
    | some v' => rfl
    | none => simp [alookup, if_neg (fun he : k = k' => h he.symm)]

theorem hasKey_exists_mem {α : Type} {m : List (String × α)} {k : String}
    (h : hasKey m k = true) : ∃ p ∈ m, p.1 = k := by
  simpa [hasKey, List.any_eq_true] using h

theorem mem_upsert_iff {α : Type} (m : List (String × α)) (k : String)
    (v : α) (q : String × α) :
    q ∈ upsert m k v ↔ q = (k, v) ∨ (q ∈ m ∧ q.1 ≠ k) := by
  unfold upsert
  by_cases h : hasKey m k
  · rw [if_pos h]
    simp only [List.mem_map]
    constructor
    · rintro ⟨p, hp, rfl⟩
      by_cases hpk : p.1 = k
      · rw [if_pos hpk]; exact Or.inl rfl
      · rw [if_neg hpk]; exact Or.inr ⟨hp, hpk⟩
    · rintro (rfl | ⟨hq, hqk⟩)
      · obtain ⟨p, hp, hpk⟩ := hasKey_exists_mem h
        exact ⟨p, hp, by rw [if_pos hpk]⟩
      · exact ⟨q, hq, by rw [if_neg hqk]⟩
  · rw [if_neg h]
    replace h : k ∉ m.map Prod.fst :=
      (hasKey_eq_false_iff m k).mp (Bool.eq_false_iff.mpr h)
    simp only [List.mem_append, List.mem_singleton]
    constructor
    · rintro (hq | rfl)
      · exact Or.inr ⟨hq, fun he => h (he ▸ List.mem_map.mpr ⟨q, hq, rfl⟩)⟩
      · exact Or.inl rfl
    · rintro (rfl | ⟨hq, _⟩)
      · exact Or.inr rfl
      · exact Or.inl hq

theorem keys_upsert_nodup {α : Type} {m : List (String × α)} (k : String)
    (v : α) (h : (m.map Prod.fst).Nodup) :
    ((upsert m k v).map Prod.fst).Nodup := by
  unfold upsert
  by_cases hh : hasKey m k
  · rw [if_pos hh, List.map_map]
    have : (m.map (Prod.fst ∘ fun p => if p.1 = k then (k, v) else p))
        = m.map Prod.fst := by
      apply List.map_congr_left
      intro p _
      by_cases hpk : p.1 = k
      · simp [Function.comp, if_pos hpk, hpk]
      · simp [Function.comp, if_neg hpk]
    rw [this]; exact h
  · rw [if_neg hh, List.map_append]
    replace hh : k ∉ m.map Prod.fst :=
      (hasKey_eq_false_iff m k).mp (Bool.eq_false_iff.mpr hh)
    simp only [List.map_cons, List.map_nil, List.nodup_append]
    refine ⟨h, List.nodup_singleton k, ?_⟩
    intro a ha hak
    rw [List.mem_singleton] at hak
    subst hak
    exact hh ha

theorem alookup_removeKey {α : Type} (m : List (String × α)) (a k : String) :
    alookup (removeKey m a) k = if k = a then none else alookup m k := by
  induction m with
  | nil => simp [removeKey, alookup]
  | cons p rest ih =>
    by_cases hpa : p.1 = a
    · have h1 : removeKey (p :: rest) a = removeKey rest a := by
        simp [removeKey, List.filter_cons, hpa]
      rw [h1, ih]
      by_cases hk : k = a
      · simp [hk]
      · rw [if_neg hk, if_neg hk]
        have hpk : p.1 ≠ k := by rw [hpa]; exact fun he => hk he.symm
        rw [alookup, if_neg hpk]
    · have h1 : removeKey (p :: rest) a = p :: removeKey rest a := by
        simp [removeKey, List.filter_cons, hpa]
      rw [h1]
      by_cases hpk : p.1 = k
      · have hk : ¬ (k = a) := fun he => hpa (hpk.trans he)
        simp [alookup, if_pos hpk, if_neg hk]
      · simp only [alookup, if_neg hpk]
        exact ih

theorem mem_removeKey_iff {α : Type} (m : List (String × α)) (a : String)
    (q : String × α) : q ∈ removeKey m a ↔ q ∈ m ∧ q.1 ≠ a := by
  simp [removeKey, List.mem_filter]

theorem keys_removeKey_nodup {α : Type} {m : List (String × α)} (a : String)
    (h : (m.map Prod.fst).Nodup) : ((removeKey m a).map Prod.fst).Nodup :=
  ((List.filter_sublist m).map Prod.fst).nodup h

theorem listHas_iff (l : List String) (x : String) :
    listHas l x = true ↔ x ∈ l := by
  simp [listHas, List.any_eq_true]

/-! ## Lemmas: store operations -/

theorem saveFileContent_content_self (st : FileSystemStore)
    (fid text : String) (now : Nat) :
    alookup (FsStore.saveFileContent st fid text now).content fid = some text :=
  alookup_upsert_self _ _ _

theorem saveFileContent_content_ne (st : FileSystemStore)
    (fid text : String) (now : Nat) {k : String} (h : k ≠ fid) :
    alookup (FsStore.saveFileContent st fid text now).content k =
      alookup st.content k :=
  alookup_upsert_ne _ _ h

theorem saveFileContent_nodes_ne (st : FileSystemStore)
    (fid text : String) (now : Nat) {k : String} (h : k ≠ fid) :
    alookup (FsStore.saveFileContent st fid text now).nodes k =
      alookup st.nodes k := by
  unfold FsStore.saveFileContent
  cases hn : alookup st.nodes fid with
  | none => rfl
  | some n =>
    by_cases ht : n.type = NodeType.file
    · simp only [ht, if_pos]
      exact alookup_upsert_ne _ _ h
    · simp only [if_neg ht]

theorem saveFileContent_active (st : FileSystemStore)
    (fid text : String) (now : Nat) :
    (FsStore.saveFileContent st fid text now).activeFileId =
      st.activeFileId := rfl

theorem repairActive_nodes (st : FileSystemStore) (l : List String) :
    (repairActive st l).nodes = st.nodes := by
  unfold repairActive
  split
  · split
    · rfl
    · rfl
  · rfl

theorem repairActive_content (st : FileSystemStore) (l : List String) :
    (repairActive st l).content = st.content := by
  unfold repairActive
  split
  · split
    · rfl
    · rfl
  · rfl

theorem removeMany_nodes (l : List String) (st : FileSystemStore)
    (k : String) :
    alookup (removeMany st l).nodes k =
      if k ∈ l then none else alookup st.nodes k := by
  induction l generalizing st with
  | nil => simp [removeMany]
  | cons a rest ih =>
    show alookup (removeMany (FsStore.removeNode st a) rest).nodes k = _
    rw [ih]
    by_cases hkr : k ∈ rest
    · rw [if_pos hkr, if_pos (List.mem_cons_of_mem _ hkr)]
    · rw [if_neg hkr]
      show alookup (removeKey st.nodes a) k = _
      rw [alookup_removeKey]
      by_cases hka : k = a
      · rw [if_pos hka, if_pos (List.mem_cons.mpr (Or.inl hka))]
      · rw [if_neg hka, if_neg (by simp [List.mem_cons, hka, hkr])]

theorem removeMany_content (l : List String) (st : FileSystemStore)
    (k : String) :
    alookup (removeMany st l).content k =
      if k ∈ l then none else alookup st.content k := by
  induction l generalizing st with
  | nil => simp [removeMany]
  | cons a rest ih =>
    show alookup (removeMany (FsStore.removeNode st a) rest).content k = _
    rw [ih]
    by_cases hkr : k ∈ rest
    · rw [if_pos hkr, if_pos (List.mem_cons_of_mem _ hkr)]
    · rw [if_neg hkr]
      show alookup (removeKey st.content a) k = _
      rw [alookup_removeKey]
      by_cases hka : k = a
      · rw [if_pos hka, if_pos (List.mem_cons.mpr (Or.inl hka))]
      · rw [if_neg hka, if_neg (by simp [List.mem_cons, hka, hkr])]

theorem removeMany_active (l : List String) (st : FileSystemStore) :
    (removeMany st l).activeFileId = st.activeFileId := by
  induction l generalizing st with
  | nil => rfl
  | cons a rest ih =>
    show (removeMany (FsStore.removeNode st a) rest).activeFileId = _
    rw [ih]; rfl

theorem mem_removeMany_nodes (l : List String) (st : FileSystemStore)
    (q : String × TreeNode) :
    q ∈ (removeMany st l).nodes ↔ q ∈ st.nodes ∧ q.1 ∉ l := by
  induction l generalizing st with
  | nil => simp [removeMany]
  | cons a rest ih =>
    show q ∈ (removeMany (FsStore.removeNode st a) rest).nodes ↔ _
    rw [ih]
    show q ∈ removeKey st.nodes a ∧ _ ↔ _
    rw [mem_removeKey_iff]
    simp only [List.mem_cons, not_or]
    tauto

theorem mem_removeMany_content (l : List String) (st : FileSystemStore)
    (q : String × String) :
    q ∈ (removeMany st l).content ↔ q ∈ st.content ∧ q.1 ∉ l := by
  induction l generalizing st with
  | nil => simp [removeMany]
  | cons a rest ih =>
    show q ∈ (removeMany (FsStore.removeNode st a) rest).content ↔ _
    rw [ih]
    show q ∈ removeKey st.content a ∧ _ ↔ _
    rw [mem_removeKey_iff]
    simp only [List.mem_cons, not_or]
    tauto

/-! ## Lemmas: snapshot validation -/

/-- Any record satisfying the spec's enumerated failure conditions is
rejected by the source validator. -/
theorem claimed_implies_invalid (sf : Option JsonValue)
    (h : claimedInvalidStore sf = true) : isValidStore sf = false := by
  cases hv : isValidStore sf with
  | false => rfl
  | true =>
    exfalso
    cases sf with
    | none => cases hv
    | some v =>
      cases v with
      | null => simp [isValidStore, jsTruthy] at hv
      | bool b => simp [isValidStore, isNonNullObject] at hv
      | num n => simp [isValidStore, isNonNullObject] at hv
      | str s => simp [isValidStore, isNonNullObject] at hv
      | arr elems => simp [isValidStore, getField, isNonNullObject] at hv
      | obj fields =>
        have andSplit : ∀ {a b : Bool}, (a && b) = true →
            a = true ∧ b = true := by
          intro a b hab
          rw [Bool.and_eq_true] at hab
          exact hab
        unfold isValidStore at hv
        obtain ⟨hv7, hall⟩ := andSplit hv
        obtain ⟨hv6, ho⟩ := andSplit hv7
        obtain ⟨hv5, hw⟩ := andSplit hv6
        obtain ⟨hv4, hact⟩ := andSplit hv5
        obtain ⟨hv3, hcont⟩ := andSplit hv4
        obtain ⟨-, hnodes⟩ := andSplit hv3
        simp only [claimedInvalidStore, fieldOf, Bool.or_eq_true,
          Bool.not_eq_true'] at h
        rcases h with ((((h | h) | h) | h) | h) | h
        · rw [h] at hnodes; cases hnodes
        · rw [h] at hcont; cases hcont
        · rw [h] at hact; cases hact
        · rw [h] at hw; cases hw
        · rw [h] at ho; cases ho
        · rw [List.any_eq_true] at h
          obtain ⟨n, hn, hbad⟩ := h
          have hsh := List.all_eq_true.mp hall n hn
          unfold nodeShapeOk at hsh
          obtain ⟨hs3, hnm⟩ := andSplit hsh
          obtain ⟨hs2, hty⟩ := andSplit hs3
          obtain ⟨-, hid⟩ := andSplit hs2
          simp only [claimedNodeBad, Bool.or_eq_true,
            Bool.not_eq_true'] at hbad
          rcases hbad with (hb | hb) | hb
          · rw [hb] at hid; cases hid
          · rw [hb] at hty; cases hty
          · rw [hb] at hnm; cases hnm

/-! ## Lemmas: well-formedness preservation -/

theorem WF.setNode_wf {st : FileSystemStore} (h : WF st) (node : TreeNode) :
    WF (FsStore.setNode st node) := by
  constructor
  · exact keys_upsert_nodup _ _ h.1
  · intro p hp
    rcases (mem_upsert_iff _ _ _ _).mp hp with rfl | ⟨hmem, _⟩
    · rfl
    · exact h.2 p hmem

theorem WF.removeMany_pres {st : FileSystemStore} (h : WF st)
    (l : List String) : WF (removeMany st l) := by
  induction l generalizing st with
  | nil => exact h
  | cons a rest ih =>
    show WF (removeMany (FsStore.removeNode st a) rest)
    apply ih
    constructor
    · exact keys_removeKey_nodup _ h.1
    · intro p hp
      exact h.2 p ((mem_removeKey_iff _ _ _).mp hp).1

theorem WF.saveFileContent_pres {st : FileSystemStore} (h : WF st)
    (fid text : String) (now : Nat) :
    WF (FsStore.saveFileContent st fid text now) := by
  unfold FsStore.saveFileContent
  cases hn : alookup st.nodes fid with
  | none => exact h
  | some n =>
    by_cases ht : n.type = NodeType.file
    · simp only [ht, if_pos]
      constructor
      · exact keys_upsert_nodup _ _ h.1
      · intro p hp
        rcases (mem_upsert_iff _ _ _ _).mp hp with rfl | ⟨hmem, _⟩
        · have hid : n.id = fid := h.2 (fid, n) (alookup_mem hn)
          exact hid
        · exact h.2 p hmem
    · simp only [if_neg ht]
      exact h

theorem WF.repairActive_pres {st : FileSystemStore} (h : WF st)
    (l : List String) : WF (repairActive st l) := by
  constructor
  · rw [repairActive_nodes]; exact h.1
  · rw [repairActive_nodes]; exact h.2

/-! ## Lemmas: coordinator -/

theorem forceSave_preserves_other (s : SystemState) (now : Nat) {b : String}
    (hne : s.store.activeFileId ≠ some b) :
    alookup (forceSave s now).store.nodes b = alookup s.store.nodes b ∧
    alookup (forceSave s now).store.content b = alookup s.store.content b := by
  unfold forceSave contentSaveHandler
  cases ha : s.store.activeFileId with
  | none => exact ⟨rfl, rfl⟩
  | some a =>
    simp only []
    by_cases hae : a ≠ ""
    · rw [if_pos hae]
      have hab : b ≠ a := fun he => hne (he ▸ ha)
      exact ⟨saveFileContent_nodes_ne _ _ _ _ hab,
             saveFileContent_content_ne _ _ _ _ hab⟩
    · rw [if_neg hae]; exact ⟨rfl, rfl⟩

theorem forceSave_flushes (s : SystemState) (now : Nat) {a : String}
    (ha : s.store.activeFileId = some a) (hane : a ≠ "") :
    alookup (forceSave s now).store.content a = some s.editorContent := by
  unfold forceSave contentSaveHandler
  simp only [ha]
  rw [if_pos hane]
  exact saveFileContent_content_self _ _ _ _

theorem repairActive_active_hit {st1 : FileSystemStore} {l : List String}
    {a : String} (ha : st1.activeFileId = some a) (hane : a ≠ "")
    (hmem : a ∈ l) :
    repairActive st1 l =
      FsStore.setActiveFileId st1 ((filesOf st1).head?.map (·.id)) := by
  unfold repairActive
  simp only [ha]
  rw [if_pos ⟨hane, (listHas_iff l a).mpr hmem⟩]

/-! ## Lemmas: the descendant walk -/

/-- Fuel monotonicity: a completed walk stays completed (with the same
result) under more fuel. -/
theorem descendAux_le (nodes : List (String × TreeNode)) :
    ∀ fuel fuel', fuel ≤ fuel' → ∀ cs r, descendAux nodes fuel cs = some r →
      descendAux nodes fuel' cs = some r := by
  intro fuel
  induction fuel with
  | zero => intro fuel' _ cs r h; cases h
  | succ f ih =>
    intro fuel' hle cs r h
    obtain ⟨f', rfl⟩ : ∃ f', fuel' = f' + 1 := by
      cases fuel' with
      | zero => omega
      | succ k => exact ⟨k, rfl⟩
    have hff : f ≤ f' := by omega
    cases cs with
    | nil => exact h
    | cons c rest =>
      simp only [descendAux] at h ⊢
      by_cases hc : c.type = NodeType.folder
      · rw [if_pos hc] at h ⊢
        cases hsub : descendAux nodes f (childrenOf nodes (some c.id)) with
        | none => rw [hsub] at h; cases h
        | some sub =>
          rw [hsub] at h
          cases hrest : descendAux nodes f rest with
          | none => rw [hrest] at h; cases h
          | some restIds =>
            rw [hrest] at h
            rw [ih f' hff _ _ hsub, ih f' hff _ _ hrest]
            exact h
      · rw [if_neg hc] at h ⊢
        cases hrest : descendAux nodes f rest with
        | none => rw [hrest] at h; cases h
        | some restIds =>
          rw [hrest] at h
          rw [ih f' hff _ _ hrest]
          exact h

/-- If every folder node of a sibling list has a completing walk of its
own children, the list itself has a completing walk. -/
theorem descend_list_exists (nodes : List (String × TreeNode))
    (L : List TreeNode)
    (hL : ∀ c ∈ L, c.type = NodeType.folder →
      ∃ fc, (descendAux nodes fc
        (childrenOf nodes (some c.id))).isSome = true) :
    ∃ fuel, (descendAux nodes fuel L).isSome = true := by
  induction L with
  | nil => exact ⟨1, rfl⟩
  | cons c rest ihL =>
    obtain ⟨fr, hfr⟩ := ihL (fun d hd => hL d (List.mem_cons_of_mem _ hd))
    obtain ⟨restIds, hrest⟩ := Option.isSome_iff_exists.mp hfr
    by_cases hc : c.type = NodeType.folder
    · obtain ⟨fc, hfc⟩ := hL c (List.mem_cons_self _ _) hc
      obtain ⟨sub, hsub⟩ := Option.isSome_iff_exists.mp hfc
      refine ⟨max fc fr + 1, ?_⟩
      have h1 := descendAux_le nodes fc (max fc fr) (le_max_left _ _) _ _ hsub
      have h2 := descendAux_le nodes fr (max fc fr) (le_max_right _ _) _ _ hrest
      simp only [descendAux]
      rw [if_pos hc, h1, h2]
      rfl
    · refine ⟨fr + 1, ?_⟩
      simp only [descendAux]
      rw [if_neg hc, hrest]
      rfl

/-- On the two-folder parent cycle, the walk never completes, at any
fuel. -/
theorem cyc_descend_none (fuel : Nat) :
    descendAux cycStore.nodes fuel [cycFolderB] = none ∧
    descendAux cycStore.nodes fuel [cycFolderA] = none := by
  induction fuel with
  | zero => exact ⟨rfl, rfl⟩
  | succ f ih =>
    constructor
    · show (match (if cycFolderB.type = NodeType.folder
            then descendAux cycStore.nodes f
              (childrenOf cycStore.nodes (some cycFolderB.id))
            else some []),
          descendAux cycStore.nodes f ([] : List TreeNode) with
        | some sub, some restIds => some (cycFolderB.id :: (sub ++ restIds))
        | _, _ => none) = none
      rw [if_pos (show cycFolderB.type = NodeType.folder from rfl)]
      rw [show childrenOf cycStore.nodes (some cycFolderB.id) = [cycFolderA]
        from by decide]
      rw [ih.2]
    · show (match (if cycFolderA.type = NodeType.folder
            then descendAux cycStore.nodes f
              (childrenOf cycStore.nodes (some cycFolderA.id))
            else some []),
          descendAux cycStore.nodes f ([] : List TreeNode) with
        | some sub, some restIds => some (cycFolderA.id :: (sub ++ restIds))
        | _, _ => none) = none
      rw [if_pos (show cycFolderA.type = NodeType.folder from rfl)]
      rw [show childrenOf cycStore.nodes (some cycFolderA.id) = [cycFolderB]
        from by decide]
      rw [ih.1]

/-! ## Lemmas: sibling-name uniqueness -/

theorem mem_insertSorted (x a : TreeNode) (l : List TreeNode) :
    a ∈ insertSorted x l ↔ a = x ∨ a ∈ l := by
  induction l with
  | nil => simp [insertSorted]
  | cons y ys ih =>
    unfold insertSorted
    by_cases hle : nodeLe x y
    · rw [if_pos hle]
      simp [List.mem_cons]
    · rw [if_neg hle]
      simp only [List.mem_cons, ih]
      tauto

theorem mem_sortNodes (a : TreeNode) (l : List TreeNode) :
    a ∈ sortNodes l ↔ a ∈ l := by
  induction l with
  | nil => simp [sortNodes]
  | cons y ys ih =>
    show a ∈ insertSorted y (sortNodes ys) ↔ _
    rw [mem_insertSorted, ih]
    simp [List.mem_cons]

theorem mem_getChildren {st : FileSystemStore} {pid : Option String}
    {n : TreeNode} :
    n ∈ getChildren st pid ↔ n ∈ childrenOf st.nodes pid := by
  unfold getChildren
  exact mem_sortNodes n _

theorem mem_childrenOf {nodes : List (String × TreeNode)}
    {pid : Option String} {q : String × TreeNode}
    (hq : q ∈ nodes) (hpar : q.2.parentId = pid) :
    q.2 ∈ childrenOf nodes pid := by
  unfold childrenOf
  exact List.mem_filter.mpr
    ⟨List.mem_map.mpr ⟨q, hq, rfl⟩, decide_eq_true hpar⟩

theorem uniqueNameLoop_not_has {names : List String} {stem ext : String} :
    ∀ {fuel i nm}, uniqueNameLoop names stem ext fuel i = some nm →
      listHas names (strToLower nm) = false := by
  intro fuel
  induction fuel with
  | zero => intro i nm h; cases h
  | succ f ih =>
    intro i nm h
    unfold uniqueNameLoop at h
    by_cases hc : listHas names (strToLower (stem ++ " " ++ toString i ++ ext))
    · rw [if_pos hc] at h
      exact ih h
    · rw [if_neg hc] at h
      cases h
      exact Bool.eq_false_iff.mpr hc

/-- A name returned by `uniqueName` does not collide (case-insensitively)
with any current child of the target parent. -/
theorem uniqueName_not_sibling {st : FileSystemStore} {base : String}
    {pid : Option String} {nm : String}
    (h : uniqueName st base pid = some nm) :
    ∀ n ∈ childrenOf st.nodes pid, (strToLower nm) ≠ (strToLower n.name) := by
  intro n hn heq
  have hnames : (strToLower nm) ∈
      (getChildren st pid).map (fun c => (strToLower c.name)) := by
    refine List.mem_map.mpr ⟨n, ?_, heq.symm⟩
    exact mem_getChildren.mpr hn
  have hfalse : listHas ((getChildren st pid).map
      (fun c => (strToLower c.name))) (strToLower nm) = false := by
    unfold uniqueName at h
    by_cases hb : listHas ((getChildren st pid).map
        (fun c => (strToLower c.name))) (strToLower base)
    · rw [if_neg (by simpa using hb)] at h
      exact uniqueNameLoop_not_has h
    · rw [if_pos (by simpa using hb)] at h
      cases h
      exact Bool.eq_false_iff.mpr hb
  rw [(listHas_iff _ _).mpr hnames] at hfalse
  cases hfalse

/-- The fresh-name property in the form needed for `setNode`:
the new name differs from every node currently under the same parent. -/
theorem uniqueName_fresh {st : FileSystemStore} {base : String}
    {pid : Option String} {nm : String}
    (h : uniqueName st base pid = some nm) :
    ∀ q ∈ st.nodes, q.2.parentId = pid → (strToLower nm) ≠ (strToLower q.2.name) :=
  fun q hq hpar => uniqueName_not_sibling h q.2 (mem_childrenOf hq hpar)

/-- `setNode` keeps sibling names unique when the inserted node's name
differs from every *other* node under the same parent. -/
theorem SiblingsUnique.setNode_sib {st : FileSystemStore} {node : TreeNode}
    (hsib : SiblingsUnique st)
    (hnew : ∀ q ∈ st.nodes, q.1 ≠ node.id →
      q.2.parentId = node.parentId →
      (strToLower node.name) ≠ (strToLower q.2.name)) :
    SiblingsUnique (FsStore.setNode st node) := by
  intro p hp q hq hne hpar
  have hp' := (mem_upsert_iff _ _ _ _).mp hp
  have hq' := (mem_upsert_iff _ _ _ _).mp hq
  rcases hp' with rfl | ⟨hpm, hpk⟩
  · rcases hq' with rfl | ⟨hqm, hqk⟩
    · exact absurd rfl hne
    · exact hnew q hqm hqk hpar.symm
  · rcases hq' with rfl | ⟨hqm, hqk⟩
    · exact (hnew p hpm hpk hpar).symm
    · exact hsib p hpm q hqm hne hpar

/-- Sibling uniqueness only reads the `nodes` map. -/
theorem SiblingsUnique.congr_nodes {st st' : FileSystemStore}
    (h : st'.nodes = st.nodes) (hs : SiblingsUnique st) :
    SiblingsUnique st' := by
  intro p hp q hq
  rw [h] at hp hq
  exact hs p hp q hq

theorem sibUnique_createFile {st : FileSystemStore} {pid : Option String}
    {name : Option String} {id : String} {now : Nat}
    {st' : FileSystemStore} {node : TreeNode}
    (hsib : SiblingsUnique st)
    (h : createFile st pid name id now = some (st', node)) :
    SiblingsUnique st' := by
  unfold createFile at h
  cases hun : uniqueName st (name.getD "Untitled.md") pid with
  | none => rw [hun] at h; cases h
  | some fileName =>
    rw [hun] at h
    simp only [Option.some.injEq, Prod.mk.injEq] at h
    obtain ⟨hst', -⟩ := h
    subst hst'
    set nd : TreeNode :=
      { id := id, type := NodeType.file, name := fileName,
        parentId := pid, createdAt := now, updatedAt := now,
        collapsed := false } with hnd
    have hs1 : SiblingsUnique (FsStore.setNode st nd) :=
      hsib.setNode_sib (fun q hq _ hqp => uniqueName_fresh hun q hq hqp)
    have hlook : alookup (FsStore.setNode st nd).nodes id = some nd :=
      alookup_upsert_self _ _ _
    apply SiblingsUnique.congr_nodes ?_
      (@SiblingsUnique.setNode_sib (FsStore.setNode st nd) nd hs1 ?_)
    · show (FsStore.saveFileContent (FsStore.setNode st nd) id "" now).nodes
        = (FsStore.setNode (FsStore.setNode st nd) nd).nodes
      unfold FsStore.saveFileContent
      rw [hlook]
      rfl
    · intro q hq hqk hqp
      have hq' := (mem_upsert_iff _ _ _ _).mp hq
      rcases hq' with rfl | ⟨hqm, -⟩
      · exact absurd rfl hqk
      · exact uniqueName_fresh hun q hqm hqp

theorem sibUnique_createFolder {st : FileSystemStore} {pid : Option String}
    {name : Option String} {id : String} {now : Nat}
    {st' : FileSystemStore} {node : TreeNode}
    (hsib : SiblingsUnique st)
    (h : createFolder st pid name id now = some (st', node)) :
    SiblingsUnique st' := by
  unfold createFolder at h
  cases hun : uniqueName st (name.getD "New Folder") pid with
  | none => rw [hun] at h; cases h
  | some folderName =>
    rw [hun] at h
    simp only [Option.some.injEq, Prod.mk.injEq] at h
    obtain ⟨hst', -⟩ := h
    subst hst'
    exact hsib.setNode_sib (fun q hq _ hqp => uniqueName_fresh hun q hq hqp)

theorem sibUnique_renameNode {st : FileSystemStore} {id newName : String}
    {now : Nat} {st' : FileSystemStore}
    (hwf : WF st) (hsib : SiblingsUnique st)
    (h : renameNode st id newName now = some st') :
    SiblingsUnique st' := by
  unfold renameNode at h
  cases hn : alookup st.nodes id with
  | none =>
    rw [hn] at h
    cases h
    exact hsib
  | some node =>
    rw [hn] at h
    simp only [] at h
    have hid : node.id = id := hwf.2 (id, node) (alookup_mem hn)
    by_cases htr : (strTrim newName) = ""
    · rw [if_pos htr] at h
      cases h
      exact hsib
    · rw [if_neg htr] at h
      by_cases hcol : listHas
          (((getChildren st node.parentId).filter
            (fun n => decide (n.id ≠ id))).map (fun n => (strToLower n.name)))
          (strToLower (strTrim newName))
      · rw [if_pos hcol] at h
        cases hu : uniqueName st (strTrim newName) node.parentId with
        | none => rw [hu] at h; cases h
        | some finalName =>
          rw [hu] at h
          cases h
          apply hsib.setNode_sib
          intro q hq hqk hqp
          have hfields :
              (if node.type = NodeType.file then
                { node with name := finalName, updatedAt := now }
              else { node with name := finalName }).name = finalName ∧
              (if node.type = NodeType.file then
                { node with name := finalName, updatedAt := now }
              else { node with name := finalName }).parentId
                = node.parentId := by
            by_cases hft : node.type = NodeType.file
            · rw [if_pos hft]; exact ⟨rfl, rfl⟩
            · rw [if_neg hft]; exact ⟨rfl, rfl⟩
          rw [hfields.1]
          rw [hfields.2] at hqp
          exact uniqueName_fresh hu q hq hqp
      · rw [if_neg hcol] at h
        cases h
        apply hsib.setNode_sib
        intro q hq hqk hqp
        have hfields :
            (if node.type = NodeType.file then
              { node with name := (strTrim newName), updatedAt := now }
            else { node with name := (strTrim newName) }).name = (strTrim newName) ∧
            (if node.type = NodeType.file then
              { node with name := (strTrim newName), updatedAt := now }
            else { node with name := (strTrim newName) }).parentId
              = node.parentId ∧
            (if node.type = NodeType.file then
              { node with name := (strTrim newName), updatedAt := now }
            else { node with name := (strTrim newName) }).id = node.id := by
          by_cases hft : node.type = NodeType.file
          · rw [if_pos hft]; exact ⟨rfl, rfl, rfl⟩
          · rw [if_neg hft]; exact ⟨rfl, rfl, rfl⟩
        rw [hfields.1]
        rw [hfields.2.1] at hqp
        rw [hfields.2.2, hid] at hqk
        -- q is a sibling distinct from the renamed node
        intro heq
        have hqid : q.2.id = q.1 := hwf.2 q hq
        have hqsib : q.2 ∈ (getChildren st node.parentId).filter
            (fun n => decide (n.id ≠ id)) := by
          refine List.mem_filter.mpr ⟨?_, ?_⟩
          · exact mem_getChildren.mpr (mem_childrenOf hq hqp)
          · exact decide_eq_true (by rw [hqid]; exact hqk)
        have : (strToLower (strTrim newName)) ∈
            (((getChildren st node.parentId).filter
              (fun n => decide (n.id ≠ id))).map
                (fun n => (strToLower n.name))) :=
          List.mem_map.mpr ⟨q.2, hqsib, heq.symm⟩
        exact hcol ((listHas_iff _ _).mpr this)

theorem wf_createFile {st : FileSystemStore} {pid name : Option String}
    {id : String} {now : Nat} {st' : FileSystemStore} {node : TreeNode}
    (hwf : WF st)
    (h : createFile st pid name id now = some (st', node)) : WF st' := by
  unfold createFile at h
  cases hun : uniqueName st (name.getD "Untitled.md") pid with
  | none => rw [hun] at h; cases h
  | some fileName =>
    rw [hun] at h
    simp only [Option.some.injEq, Prod.mk.injEq] at h
    obtain ⟨hst', -⟩ := h
    subst hst'
    exact (hwf.setNode_wf _).saveFileContent_pres _ _ _

theorem wf_createFolder {st : FileSystemStore} {pid name : Option String}
    {id : String} {now : Nat} {st' : FileSystemStore} {node : TreeNode}
    (hwf : WF st)
    (h : createFolder st pid name id now = some (st', node)) : WF st' := by
  unfold createFolder at h
  cases hun : uniqueName st (name.getD "New Folder") pid with
  | none => rw [hun] at h; cases h
  | some folderName =>
    rw [hun] at h
    simp only [Option.some.injEq, Prod.mk.injEq] at h
    obtain ⟨hst', -⟩ := h
    subst hst'
    exact hwf.setNode_wf _

theorem wf_renameNode {st : FileSystemStore} {id newName : String}
    {now : Nat} {st' : FileSystemStore} (hwf : WF st)
    (h : renameNode st id newName now = some st') : WF st' := by
  unfold renameNode at h
  cases hn : alookup st.nodes id with
  | none => rw [hn] at h; cases h; exact hwf
  | some node =>
    rw [hn] at h
    simp only [] at h
    by_cases htr : (strTrim newName) = ""
    · rw [if_pos htr] at h; cases h; exact hwf
    · rw [if_neg htr] at h
      by_cases hcol : listHas
          (((getChildren st node.parentId).filter
            (fun n => decide (n.id ≠ id))).map (fun n => (strToLower n.name)))
          (strToLower (strTrim newName))
      · rw [if_pos hcol] at h
        cases hu : uniqueName st (strTrim newName) node.parentId with
        | none => rw [hu] at h; cases h
        | some finalName =>
          rw [hu] at h
          cases h
          exact hwf.setNode_wf _
      · rw [if_neg hcol] at h
        cases h
        exact hwf.setNode_wf _

theorem invPair_applyOp {st st' : FileSystemStore} {op : FsOp}
    (hwf : WF st) (hsib : SiblingsUnique st)
    (hcr : op.isCreateOrRename = true)
    (h : applyOp st op = some st') : WF st' ∧ SiblingsUnique st' := by
  cases op with
  | mkFile pid name id now =>
    simp only [applyOp] at h
    cases hc : createFile st pid name id now with
    | none => rw [hc] at h; cases h
    | some pr =>
      obtain ⟨st2, node⟩ := pr
      rw [hc] at h
      cases h
      exact ⟨wf_createFile hwf hc, sibUnique_createFile hsib hc⟩
  | mkFolder pid name id now =>
    simp only [applyOp] at h
    cases hc : createFolder st pid name id now with
    | none => rw [hc] at h; cases h
    | some pr =>
      obtain ⟨st2, node⟩ := pr
      rw [hc] at h
      cases h
      exact ⟨wf_createFolder hwf hc, sibUnique_createFolder hsib hc⟩
  | rename id newName now =>
    simp only [applyOp] at h
    exact ⟨wf_renameNode hwf h, sibUnique_renameNode hwf hsib h⟩
  | move id newParentId now => simp [FsOp.isCreateOrRename] at hcr
  | removeTree id => simp [FsOp.isCreateOrRename] at hcr
  | saveContent fileId text now => simp [FsOp.isCreateOrRename] at hcr

/-! ## Lemmas: the content invariant -/

theorem ContentInv.congr {st st' : FileSystemStore}
    (hn : st'.nodes = st.nodes) (hc : st'.content = st.content)
    (h : ContentInv st) : ContentInv st' := by
  constructor
  · intro p hp
    rw [hc] at hp
    obtain ⟨n, hl, hf⟩ := h.1 p hp
    exact ⟨n, by rw [hn]; exact hl, hf⟩
  · intro q hq hf
    rw [hn] at hq
    rw [hc]
    exact h.2 q hq hf

/-- Upserting a node of the same type at a key that already holds a node
preserves the content invariant. -/
theorem contentInv_setNode_sameType {st : FileSystemStore} {k : String}
    {node node' : TreeNode}
    (hinv : ContentInv st)
    (hn : alookup st.nodes k = some node)
    (hty : node'.type = node.type) :
    ContentInv { st with nodes := upsert st.nodes k node' } := by
  constructor
  · intro p hp
    obtain ⟨n, hlook, hf⟩ := hinv.1 p hp
    by_cases hpk : p.1 = k
    · subst hpk
      rw [hn] at hlook
      cases hlook
      exact ⟨node', alookup_upsert_self _ _ _, by rw [hty]; exact hf⟩
    · exact ⟨n, by
        show alookup (upsert st.nodes k node') p.1 = some n
        rw [alookup_upsert_ne _ _ hpk]; exact hlook, hf⟩
  · intro q hq hqf
    rcases (mem_upsert_iff _ _ _ _).mp hq with rfl | ⟨hqm, -⟩
    · have hqf' : node.type = NodeType.file := by rw [← hty]; exact hqf
      exact hinv.2 (k, node) (alookup_mem hn) hqf'
    · exact hinv.2 q hqm hqf

theorem contentInv_createFile {st : FileSystemStore}
    {pid name : Option String} {id : String} {now : Nat}
    {st' : FileSystemStore} {node : TreeNode}
    (hinv : ContentInv st)
    (h : createFile st pid name id now = some (st', node)) :
    ContentInv st' := by
  unfold createFile at h
  cases hun : uniqueName st (name.getD "Untitled.md") pid with
  | none => rw [hun] at h; cases h
  | some fileName =>
    rw [hun] at h
    simp only [Option.some.injEq, Prod.mk.injEq] at h
    obtain ⟨hst', -⟩ := h
    subst hst'
    set nd : TreeNode :=
      { id := id, type := NodeType.file, name := fileName,
        parentId := pid, createdAt := now, updatedAt := now,
        collapsed := false } with hnd
    have hlook : alookup (FsStore.setNode st nd).nodes id = some nd :=
      alookup_upsert_self _ _ _
    have hnodes2 :
        (FsStore.saveFileContent (FsStore.setNode st nd) id "" now).nodes =
          upsert (upsert st.nodes id nd) id nd := by
      unfold FsStore.saveFileContent
      rw [hlook]
      rfl
    constructor
    · intro p hp
      rcases (mem_upsert_iff _ _ _ _).mp hp with rfl | ⟨hpm, hpk⟩
      · refine ⟨nd, ?_, rfl⟩
        rw [hnodes2]
        exact alookup_upsert_self _ _ _
      · obtain ⟨m, hm, hmf⟩ := hinv.1 p hpm
        refine ⟨m, ?_, hmf⟩
        rw [hnodes2, alookup_upsert_ne _ _ hpk, alookup_upsert_ne _ _ hpk]
        exact hm
    · intro q hq hqf
      rw [hnodes2] at hq
      rcases (mem_upsert_iff _ _ _ _).mp hq with rfl | ⟨hq1, hqk⟩
      · show (alookup (upsert st.content id "") id).isSome = true
        rw [alookup_upsert_self]
        rfl
      · rcases (mem_upsert_iff _ _ _ _).mp hq1 with rfl | ⟨hq2, -⟩
        · exact absurd rfl hqk
        · have := hinv.2 q hq2 hqf
          show (alookup (upsert st.content id "") q.1).isSome = true
          rw [alookup_upsert_ne _ _ hqk]
          exact this

theorem contentInv_createFolder {st : FileSystemStore}
    {pid name : Option String} {id : String} {now : Nat}
    {st' : FileSystemStore} {node : TreeNode}
    (hinv : ContentInv st)
    (hfresh : alookup st.nodes id = none)
    (h : createFolder st pid name id now = some (st', node)) :
    ContentInv st' := by
  unfold createFolder at h
  cases hun : uniqueName st (name.getD "New Folder") pid with
  | none => rw [hun] at h; cases h
  | some folderName =>
    rw [hun] at h
    simp only [Option.some.injEq, Prod.mk.injEq] at h
    obtain ⟨hst', -⟩ := h
    subst hst'
    constructor
    · intro p hp
      obtain ⟨m, hm, hmf⟩ := hinv.1 p hp
      have hpk : p.1 ≠ id := by
        intro he
        rw [he, hfresh] at hm
        cases hm
      refine ⟨m, ?_, hmf⟩
      show alookup (upsert st.nodes id _) p.1 = some m
      rw [alookup_upsert_ne _ _ hpk]
      exact hm
    · intro q hq hqf
      rcases (mem_upsert_iff _ _ _ _).mp hq with rfl | ⟨hqm, -⟩
      · cases hqf
      · exact hinv.2 q hqm hqf

theorem contentInv_renameNode {st : FileSystemStore} {id newName : String}
    {now : Nat} {st' : FileSystemStore}
    (hwf : WF st) (hinv : ContentInv st)
    (h : renameNode st id newName now = some st') : ContentInv st' := by
  unfold renameNode at h
  cases hn : alookup st.nodes id with
  | none => rw [hn] at h; cases h; exact hinv
  | some node =>
    rw [hn] at h
    simp only [] at h
    have hid : node.id = id := hwf.2 (id, node) (alookup_mem hn)
    by_cases htr : (strTrim newName) = ""
    · rw [if_pos htr] at h; cases h; exact hinv
    · rw [if_neg htr] at h
      have finish0 : ∀ node' : TreeNode, node'.id = node.id →
          node'.type = node.type →
          ContentInv (FsStore.setNode st node') := by
        intro node' hnid hnty
        unfold FsStore.setNode
        exact @contentInv_setNode_sameType st node'.id node node' hinv
          (by rw [hnid, hid]; exact hn) hnty
      have finish : ∀ finalName : String,
          ContentInv (FsStore.setNode st
            (if node.type = NodeType.file then
              { node with name := finalName, updatedAt := now }
            else { node with name := finalName })) := by
        intro finalName
        refine finish0 _ ?_ ?_
        · by_cases hft : node.type = NodeType.file
          · rw [if_pos hft]
          · rw [if_neg hft]
        · by_cases hft : node.type = NodeType.file
          · rw [if_pos hft]
          · rw [if_neg hft]
      by_cases hcol : listHas
          (((getChildren st node.parentId).filter
            (fun n => decide (n.id ≠ id))).map (fun n => (strToLower n.name)))
          (strToLower (strTrim newName))
      · rw [if_pos hcol] at h
        cases hu : uniqueName st (strTrim newName) node.parentId with
        | none => rw [hu] at h; cases h
        | some finalName =>
          rw [hu] at h
          cases h
          exact finish finalName
      · rw [if_neg hcol] at h
        cases h
        exact finish (strTrim newName)

theorem contentInv_moveNode {st : FileSystemStore} {id : String}
    {newParentId : Option String} {now : Nat} {st' : FileSystemStore}
    (hwf : WF st) (hinv : ContentInv st)
    (h : moveNode st id newParentId now = some st') : ContentInv st' := by
  unfold moveNode at h
  cases hn : alookup st.nodes id with
  | none => rw [hn] at h; cases h; exact hinv
  | some node =>
    rw [hn] at h
    have hid : node.id = id := hwf.2 (id, node) (alookup_mem hn)
    obtain ⟨nid, nty, nname, npid, nca, nua, nco⟩ := node
    simp only [TreeNode.id] at hid
    cases nty with
    | folder =>
      cases newParentId with
      | some t =>
        simp only [] at h
        cases hd : getDescendantIds st id with
        | none => rw [hd] at h; cases h
        | some ds =>
          rw [hd] at h
          simp only [] at h
          by_cases hc : t = id ∨ listHas ds t = true
          · rw [if_pos hc] at h; cases h; exact hinv
          · rw [if_neg hc] at h
            cases h
            unfold FsStore.setNode
            exact @contentInv_setNode_sameType st nid
              ⟨nid, NodeType.folder, nname, npid, nca, nua, nco⟩
              ⟨nid, NodeType.folder, nname, some t, nca, nua, nco⟩ hinv
              (by rw [← hid] at hn; exact hn) rfl
      | none =>
        simp only [] at h
        cases h
        unfold FsStore.setNode
        exact @contentInv_setNode_sameType st nid
          ⟨nid, NodeType.folder, nname, npid, nca, nua, nco⟩
          ⟨nid, NodeType.folder, nname, none, nca, nua, nco⟩ hinv
          (by rw [← hid] at hn; exact hn) rfl
    | file =>
      simp only [] at h
      cases h
      unfold FsStore.setNode
      exact @contentInv_setNode_sameType st nid
        ⟨nid, NodeType.file, nname, npid, nca, nua, nco⟩
        ⟨nid, NodeType.file, nname, newParentId, nca, now, nco⟩ hinv
        (by rw [← hid] at hn; exact hn) rfl

theorem contentInv_removeMany {st : FileSystemStore} (l : List String)
    (hinv : ContentInv st) : ContentInv (removeMany st l) := by
  constructor
  · intro p hp
    obtain ⟨hpm, hpl⟩ := (mem_removeMany_content l st p).mp hp
    obtain ⟨n, hl, hf⟩ := hinv.1 p hpm
    refine ⟨n, ?_, hf⟩
    rw [removeMany_nodes, if_neg hpl]
    exact hl
  · intro q hq hqf
    obtain ⟨hqm, hql⟩ := (mem_removeMany_nodes l st q).mp hq
    rw [removeMany_content, if_neg hql]
    exact hinv.2 q hqm hqf

theorem contentInv_deleteNode {st : FileSystemStore} {id : String}
    {st' : FileSystemStore} {removed : List String}
    (hinv : ContentInv st)
    (h : deleteNode st id = some (st', removed)) : ContentInv st' := by
  unfold deleteNode at h
  cases hn : alookup st.nodes id with
  | none =>
    simp only [hn, Option.some.injEq, Prod.mk.injEq] at h
    obtain ⟨h1, -⟩ := h
    rw [← h1]
    exact hinv
  | some node =>
    simp only [hn] at h
    cases hdo : (if node.type = NodeType.folder
        then getDescendantIds st id else some []) with
    | none => rw [hdo] at h; cases h
    | some ds =>
      rw [hdo] at h
      simp only [Option.some.injEq, Prod.mk.injEq] at h
      obtain ⟨h1, -⟩ := h
      rw [← h1]
      exact ContentInv.congr (repairActive_nodes _ _) (repairActive_content _ _)
        (contentInv_removeMany _ hinv)

theorem contentInv_saveFileContent {st : FileSystemStore}
    {fid : String} (text : String) (now : Nat)
    (hinv : ContentInv st) (hfile : isFileEntry st fid) :
    ContentInv (FsStore.saveFileContent st fid text now) := by
  obtain ⟨n, hn, hf⟩ := hfile
  unfold FsStore.saveFileContent
  rw [hn]
  simp only []
  rw [if_pos hf]
  constructor
  · intro p hp
    rcases (mem_upsert_iff _ _ _ _).mp hp with rfl | ⟨hpm, hpk⟩
    · exact ⟨{ n with updatedAt := now }, alookup_upsert_self _ _ _, hf⟩
    · obtain ⟨m, hm, hmf⟩ := hinv.1 p hpm
      by_cases hpk2 : p.1 = fid
      · subst hpk2
        rw [hn] at hm
        cases hm
        exact ⟨{ n with updatedAt := now }, alookup_upsert_self _ _ _, hmf⟩
      · refine ⟨m, ?_, hmf⟩
        show alookup (upsert st.nodes fid _) p.1 = some m
        rw [alookup_upsert_ne _ _ hpk2]
        exact hm
  · intro q hq hqf
    rcases (mem_upsert_iff _ _ _ _).mp hq with rfl | ⟨hqm, hqk⟩
    · show (alookup (upsert st.content fid text) fid).isSome = true
      rw [alookup_upsert_self]
      rfl
    · have := hinv.2 q hqm hqf
      show (alookup (upsert st.content fid text) q.1).isSome = true
      rw [alookup_upsert_ne _ _ hqk]
      exact this

theorem contentInv_migrate (parse : String → Option FileSystemStore)
    (legacy : Option String) (id : String) (now : Nat) :
    ContentInv (migrateIfNeeded none parse legacy id now) := by
  constructor
  · intro p hp
    simp only [migrateIfNeeded, List.mem_singleton] at hp
    subst hp
    refine ⟨(⟨id, NodeType.file,
      (match legacy with
       | some s => if s ≠ "" then "My Notes.md" else "Untitled.md"
       | none => "Untitled.md"),
      none, now, now, false⟩ : TreeNode), ?_, rfl⟩
    simp [migrateIfNeeded, alookup]
  · intro q hq _
    simp only [migrateIfNeeded, List.mem_singleton] at hq
    subst hq
    simp [migrateIfNeeded, alookup]

/-! ## Claim theorems -/

/-- **C6 counterexample.**  On the malformed store whose two folders are
each other's parent, the `getDescendantIds` recursion started at `"A"`
never completes: the bounded model run reports non-completion, and no
recursion-depth fuel ever suffices — i.e. the source function does not
terminate there. -/
theorem getDescendantIds_cycle_diverges :
    getDescendantIds cycStore "A" = none ∧
    ¬ DescTerminates cycStore "A" := by
  constructor
  · decide
  · rintro ⟨fuel, hsome⟩
    rw [show childrenOf cycStore.nodes (some "A") = [cycFolderB]
      from by decide] at hsome
    rw [(cyc_descend_none fuel).1] at hsome
    cases hsome

/-- **C6 (amended).**  `getDescendantIds(folderId)` terminates whenever
the folder-child relation of the store is accessible from `folderId` — in
particular on every store whose parent references form a forest.  Under a
parent cycle reachable from `folderId` the recursion does not terminate
(see the counterexample). -/
theorem getDescendantIds_terminates_acc (st : FileSystemStore)
    (folderId : String) (hacc : Acc (folderChild st) folderId) :
    DescTerminates st folderId := by
  induction hacc with
  | intro x hx ih =>
    unfold DescTerminates
    apply descend_list_exists
    intro c hc hcf
    exact ih c.id ⟨c, hc, hcf, rfl⟩

/-- **C5.**  For every sequence of create and rename operations, sibling
names stay case-insensitively unique; a name `uniqueName` returns never
collides with an existing child of the target parent (the numeric-suffix
loop runs until unique); and creating `"Untitled.md"` in a folder that
already contains `"Untitled.md"` yields a File named `"Untitled 2.md"`. -/
theorem sibling_names_unique :
    (∀ (st : FileSystemStore) (ops : List FsOp) (st' : FileSystemStore),
      WF st → SiblingsUnique st →
      (∀ op ∈ ops, op.isCreateOrRename = true) →
      applyOps st ops = some st' → SiblingsUnique st') ∧
    (∀ (st : FileSystemStore) (base : String) (pid : Option String)
      (nm : String), uniqueName st base pid = some nm →
      ∀ n ∈ childrenOf st.nodes pid, (strToLower nm) ≠ (strToLower n.name)) ∧
    (createFile c5store (some "p") (some "Untitled.md") "new" 7 =
      some (c5after, c5newFile) ∧
     c5newFile.name = "Untitled 2.md") := by
  refine ⟨?_, ?_, by decide, by decide⟩
  · intro st ops
    induction ops generalizing st with
    | nil =>
      intro st' hwf hsib hall h
      cases h
      exact hsib
    | cons op rest ih =>
      intro st' hwf hsib hall h
      unfold applyOps at h
      cases hop : applyOp st op with
      | none => rw [hop] at h; cases h
      | some st1 =>
        rw [hop] at h
        obtain ⟨hwf1, hsib1⟩ := invPair_applyOp hwf hsib
          (hall op (List.mem_cons_self _ _)) hop
        exact ih st1 st' hwf1 hsib1
          (fun op' ho => hall op' (List.mem_cons_of_mem _ ho)) h
  · exact fun st base pid nm h => uniqueName_not_sibling h

theorem sibling_names_unique_witness :
    (WF c5store ∧ SiblingsUnique c5store ∧
     (∀ op ∈ ([FsOp.mkFile (some "p") (some "Untitled.md") "new" 7] :
        List FsOp), op.isCreateOrRename = true) ∧
     applyOps c5store
        [FsOp.mkFile (some "p") (some "Untitled.md") "new" 7] =
        some c5after) ∧
    SiblingsUnique c5after :=
  ⟨⟨by decide, by decide, by decide, by decide⟩,
   sibling_names_unique.1 c5store
     [FsOp.mkFile (some "p") (some "Untitled.md") "new" 7] c5after
     (by decide) (by decide) (by decide) (by decide)⟩

/-- **C7.**  Every imported record that fails validation (per the spec's
enumerated conditions, `claimedInvalidStore`) or fails to parse as JSON
is rejected with a user-visible message, and the live store is not
mutated in any way. -/
theorem importSnapshot_rejects_invalid (current : FileSystemStore)
    (parsed : Option JsonValue) (confirmed : Bool)
    (h : parsed = none ∨ ∃ j, parsed = some j ∧
      claimedInvalidStore (getField j "store") = true) :
    (importSnapshotModel current parsed confirmed).1 = current ∧
    ((importSnapshotModel current parsed confirmed).2 =
        ImportOutcome.readFailure ∨
     (importSnapshotModel current parsed confirmed).2 =
        ImportOutcome.invalidFormat) := by
  rcases h with rfl | ⟨j, rfl, hj⟩
  · exact ⟨rfl, Or.inl rfl⟩
  · have hval : isValidStore (getField j "store") = false :=
      claimed_implies_invalid _ hj
    unfold importSnapshotModel
    simp only []
    cases hnull : isNullJson j with
    | true =>
      rw [if_pos (rfl : (true : Bool) = true)]
      exact ⟨rfl, Or.inl rfl⟩
    | false =>
      rw [if_neg (by simp : ¬ ((false : Bool) = true))]
      rw [if_pos (by simp [hval])]
      exact ⟨rfl, Or.inr rfl⟩

theorem importSnapshot_rejects_invalid_witness :
    (claimedInvalidStore (getField c7json "store") = true) ∧
    ((importSnapshotModel DEFAULT_STORE (some c7json) true).1 =
        DEFAULT_STORE ∧
     ((importSnapshotModel DEFAULT_STORE (some c7json) true).2 =
         ImportOutcome.readFailure ∨
      (importSnapshotModel DEFAULT_STORE (some c7json) true).2 =
         ImportOutcome.invalidFormat)) :=
  ⟨by decide,
   importSnapshot_rejects_invalid DEFAULT_STORE (some c7json) true
     (Or.inr ⟨c7json, rfl, by decide⟩)⟩

/-- **C8 counterexample.**  A snapshot whose store has a content entry for
an id that is not a File in `nodes` passes `isValidStore` (the validator
never checks the nodes/content correspondence), so a confirmed import
replaces the live store with one that violates the no-orphaned-content
invariant.  The invariant is therefore not maintained across all public
operations. -/
theorem import_breaks_content_invariant :
    isValidStore (getField c8snapshotJson "store") = true ∧
    importSnapshotModel DEFAULT_STORE (some c8snapshotJson) true =
      (c8imported, ImportOutcome.replaced) ∧
    ¬ ContentInv c8imported := by
  exact ⟨by decide, by decide, by decide⟩

/-- **C8 (amended).**  The no-orphaned-content invariant (`content` holds
an entry for exactly the File ids in `nodes`) is established by migration
and preserved by `createFile`, by `createFolder` (for a fresh id, as
`crypto.randomUUID` provides), by `renameNode`, `moveNode` and
`deleteNode`, and by a content save whose target id is an existing File —
but snapshot import can break it (see the counterexample), and a content
save to a dangling active id would too. -/
theorem content_matches_files_preserved :
    (∀ (st : FileSystemStore) (pid name : Option String) (id : String)
      (now : Nat) (st' : FileSystemStore) (node : TreeNode),
      ContentInv st → createFile st pid name id now = some (st', node) →
      ContentInv st') ∧
    (∀ (st : FileSystemStore) (pid name : Option String) (id : String)
      (now : Nat) (st' : FileSystemStore) (node : TreeNode),
      ContentInv st → alookup st.nodes id = none →
      createFolder st pid name id now = some (st', node) →
      ContentInv st') ∧
    (∀ (st : FileSystemStore) (id newName : String) (now : Nat)
      (st' : FileSystemStore), WF st → ContentInv st →
      renameNode st id newName now = some st' → ContentInv st') ∧
    (∀ (st : FileSystemStore) (id : String) (newParentId : Option String)
      (now : Nat) (st' : FileSystemStore), WF st → ContentInv st →
      moveNode st id newParentId now = some st' → ContentInv st') ∧
    (∀ (st : FileSystemStore) (id : String) (st' : FileSystemStore)
      (removed : List String), ContentInv st →
      deleteNode st id = some (st', removed) → ContentInv st') ∧
    (∀ (st : FileSystemStore) (fid text : String) (now : Nat),
      ContentInv st → isFileEntry st fid →
      ContentInv (FsStore.saveFileContent st fid text now)) ∧
    (∀ (parse : String → Option FileSystemStore) (legacy : Option String)
      (id : String) (now : Nat),
      ContentInv (migrateIfNeeded none parse legacy id now)) :=
  ⟨fun _ _ _ _ _ _ _ hi h => contentInv_createFile hi h,
   fun _ _ _ _ _ _ _ hi hf h => contentInv_createFolder hi hf h,
   fun _ _ _ _ _ hw hi h => contentInv_renameNode hw hi h,
   fun _ _ _ _ _ hw hi h => contentInv_moveNode hw hi h,
   fun _ _ _ _ hi h => contentInv_deleteNode hi h,
   fun _ _ text now hi hf => contentInv_saveFileContent text now hi hf,
   fun parse legacy id now => contentInv_migrate parse legacy id now⟩

theorem content_matches_files_preserved_witness :
    (ContentInv c2store ∧ isFileEntry c2store "c") ∧
    ContentInv (FsStore.saveFileContent c2store "c" "updated" 5) :=
  ⟨⟨by decide, by decide⟩,
   content_matches_files_preserved.2.2.2.2.2.1 c2store "c" "updated" 5
     (by decide) (by decide)⟩

theorem getDescendantIds_terminates_acc_witness :
    DescTerminates c4store "p" :=
  getDescendantIds_terminates_acc c4store "p"
    (by
      refine Acc.intro _ ?_
      rintro c ⟨n, hn, hf, rfl⟩
      rw [show childrenOf c4store.nodes (some "p") = [c4inner]
        from by decide] at hn
      have hn' : n = c4inner := by simpa using hn
      subst hn'
      refine Acc.intro _ ?_
      rintro d ⟨m, hm, hmf, rfl⟩
      rw [show childrenOf c4store.nodes (some c4inner.id) = []
        from by decide] at hm
      cases hm)


/-- **C2.**  For every Folder `F` in the store, `deleteNode F` removes `F`
and all of its transitive descendants (the ids `getDescendantIds` collects)
from both the `nodes` and the `content` mapping — and touches no other
key — and returns exactly `N + 1` removed ids when `F` has `N`
descendants. -/
theorem deleteNode_cascade (st : FileSystemStore) (id : String)
    (node : TreeNode) (ds : List String) (st' : FileSystemStore)
    (removed : List String)
    (hnode : alookup st.nodes id = some node)
    (htype : node.type = NodeType.folder)
    (hdesc : getDescendantIds st id = some ds)
    (hdel : deleteNode st id = some (st', removed)) :
    removed = id :: ds ∧
    removed.length = ds.length + 1 ∧
    (∀ k ∈ removed, alookup st'.nodes k = none ∧
      alookup st'.content k = none) ∧
    (∀ k, k ∉ removed → alookup st'.nodes k = alookup st.nodes k ∧
      alookup st'.content k = alookup st.content k) := by
  unfold deleteNode at hdel
  simp only [hnode, htype, if_pos, hdesc, Option.some.injEq,
    Prod.mk.injEq] at hdel
  obtain ⟨hst', hrem⟩ := hdel
  subst hrem
  subst hst'
  refine ⟨rfl, rfl, ?_, ?_⟩
  · intro k hk
    constructor
    · rw [repairActive_nodes, removeMany_nodes, if_pos hk]
    · rw [repairActive_content, removeMany_content, if_pos hk]
  · intro k hk
    constructor
    · rw [repairActive_nodes, removeMany_nodes, if_neg hk]
    · rw [repairActive_content, removeMany_content, if_neg hk]

theorem deleteNode_cascade_witness :
    (alookup c2store.nodes "f" = some c2folder ∧
     c2folder.type = NodeType.folder ∧
     getDescendantIds c2store "f" = some ["c"] ∧
     deleteNode c2store "f" = some (c2deleted, ["f", "c"])) ∧
    (["f", "c"] = "f" :: ["c"] ∧
     (["f", "c"] : List String).length = (["c"] : List String).length + 1 ∧
     (∀ k ∈ ["f", "c"], alookup c2deleted.nodes k = none ∧
       alookup c2deleted.content k = none) ∧
     (∀ k, k ∉ (["f", "c"] : List String) →
       alookup c2deleted.nodes k = alookup c2store.nodes k ∧
       alookup c2deleted.content k = alookup c2store.content k)) :=
  ⟨⟨by decide, by decide, by decide, by decide⟩,
   deleteNode_cascade c2store "f" c2folder ["c"] c2deleted ["f", "c"]
     (by decide) (by decide) (by decide) (by decide)⟩

/-- **C4.**  For every Folder `F` and every target that is `F` itself or
one of the ids in `getDescendantIds F`, `moveNode` is a no-op: the store —
in particular every node's `parentId` — is unchanged. -/
theorem moveNode_cycle_guard (st : FileSystemStore) (id t : String)
    (node : TreeNode) (ds : List String) (now : Nat)
    (hnode : alookup st.nodes id = some node)
    (htype : node.type = NodeType.folder)
    (hdesc : getDescendantIds st id = some ds)
    (ht : t = id ∨ t ∈ ds) :
    moveNode st id (some t) now = some st := by
  obtain ⟨nid, nty, nname, npid, nca, nua, nco⟩ := node
  simp only at htype
  subst htype
  unfold moveNode
  simp only [hnode, hdesc]
  have hcond : t = id ∨ listHas ds t = true := by
    rcases ht with h | h
    · exact Or.inl h
    · exact Or.inr ((listHas_iff ds t).mpr h)
  rw [if_pos hcond]

/-- **C1 counterexample.**  The claim fails when the active File's id is
the empty string (reachable by importing a snapshot, whose validator
accepts any string id): the save handler's truthiness test
`if (activeId)` skips the flush, so the switch to `"b"` does not persist
the editor's current content (`"edited"`) to the active file — its stored
content stays `"old"`. -/
theorem switchFile_empty_id_flush_skipped :
    ce1sys.store.activeFileId = some "" ∧
    isFileEntry ce1sys.store "" ∧
    (switchFile ce1sys "b" 7).store.activeFileId = some "b" ∧
    alookup (switchFile ce1sys "b" 7).store.content "" = some "old" ∧
    ¬ alookup (switchFile ce1sys "b" 7).store.content "" =
        some ce1sys.editorContent := by decide

/-- **C1 (amended).**  For every switch from an active File `A` to a
different File `B`, *provided `A`'s id is a non-empty string* (the save
handler's JS truthiness test skips the flush for the empty-string id),
`switchFile` persists the editor's current content under `A` before
`activeFileId` changes to `B`, then loads `B`'s (pre-switch) stored
content into the editor; and when the requested id equals the current
active id, `switchFile` is a no-op. -/
theorem switchFile_flush_order :
    (∀ (s : SystemState) (a b : String) (now : Nat),
      s.store.activeFileId = some a → a ≠ "" → a ≠ b →
      alookup (switchFile s b now).store.content a = some s.editorContent ∧
      (switchFile s b now).store.activeFileId = some b ∧
      (switchFile s b now).editorContent = FsStore.getContent s.store b) ∧
    (∀ (s : SystemState) (i : String) (now : Nat),
      s.store.activeFileId = some i → switchFile s i now = s) := by
  constructor
  · intro s a b now ha hane hab
    have hne : s.store.activeFileId ≠ some b := by
      rw [ha]
      intro h
      exact hab (Option.some.inj h)
    unfold switchFile
    rw [if_neg hne]
    refine ⟨?_, rfl, ?_⟩
    · show alookup (forceSave s now).store.content a = some s.editorContent
      exact forceSave_flushes s now ha hane
    · show (alookup (forceSave s now).store.content b).getD "" =
        FsStore.getContent s.store b
      rw [(forceSave_preserves_other s now hne).2]
      rfl
  · intro s i now h
    unfold switchFile
    rw [if_pos h]

theorem switchFile_flush_order_witness :
    (c1sys.store.activeFileId = some "a" ∧ "a" ≠ "" ∧ "a" ≠ "b") ∧
    (alookup (switchFile c1sys "b" 9).store.content "a" =
        some c1sys.editorContent ∧
      (switchFile c1sys "b" 9).store.activeFileId = some "b" ∧
      (switchFile c1sys "b" 9).editorContent =
        FsStore.getContent c1sys.store "b") :=
  ⟨⟨by decide, by decide, by decide⟩,
   switchFile_flush_order.1 c1sys "a" "b" 9 (by decide) (by decide)
     (by decide)⟩

/-- **C10.**  For every id distinct from the current active id,
`switchFile` sets `activeFileId` to that id even when no node with that id
exists, and loads the empty-string default content into the editor, so the
active id is left referencing a non-existent File. -/
theorem switchFile_unknown_id_dangling (s : SystemState) (b : String)
    (now : Nat)
    (hne : s.store.activeFileId ≠ some b)
    (hn : alookup s.store.nodes b = none)
    (hc : alookup s.store.content b = none) :
    (switchFile s b now).store.activeFileId = some b ∧
    alookup (switchFile s b now).store.nodes b = none ∧
    (switchFile s b now).editorContent = "" := by
  unfold switchFile
  rw [if_neg hne]
  refine ⟨rfl, ?_, ?_⟩
  · show alookup (forceSave s now).store.nodes b = none
    rw [(forceSave_preserves_other s now hne).1]
    exact hn
  · show (alookup (forceSave s now).store.content b).getD "" = ""
    rw [(forceSave_preserves_other s now hne).2, hc]
    rfl

theorem switchFile_unknown_id_dangling_witness :
    (c10sys.store.activeFileId ≠ some "zz" ∧
     alookup c10sys.store.nodes "zz" = none ∧
     alookup c10sys.store.content "zz" = none) ∧
    ((switchFile c10sys "zz" 4).store.activeFileId = some "zz" ∧
     alookup (switchFile c10sys "zz" 4).store.nodes "zz" = none ∧
     (switchFile c10sys "zz" 4).editorContent = "") :=
  ⟨⟨by decide, by decide, by decide⟩,
   switchFile_unknown_id_dangling c10sys "zz" 4 (by decide) (by decide)
     (by decide)⟩

/-- **C3 counterexample.**  Deleting the active File when its id is the
empty string (reachable via snapshot import): the removed ids contain the
active id and another File remains, yet the repair is skipped by the
source's truthiness test `if (activeId && ...)`, leaving `activeFileId`
at `some ""`, which references no existing node. -/
theorem deleteNode_empty_active_no_repair :
    deleteNode ce3store "" = some (ce3deleted, [""]) ∧
    ce3store.activeFileId = some "" ∧
    filesOf ce3deleted ≠ [] ∧
    ce3deleted.activeFileId = some "" ∧
    alookup ce3deleted.nodes "" = none := by decide

/-- **C3 (amended).**  For every delete whose removed ids include the
current `activeFileId`, *provided that id is a non-empty string* (the
source's truthiness test skips the repair for the empty-string id): if at
least one File node remains, `deleteNode` sets `activeFileId` to the id of
some remaining File node (non-null and referencing an existing File); if
no File node remains, it sets `activeFileId` to `null`. -/
theorem deleteNode_active_repair (st : FileSystemStore) (id : String)
    (st' : FileSystemStore) (removed : List String) (a : String)
    (hwf : WF st)
    (hdel : deleteNode st id = some (st', removed))
    (ha : st.activeFileId = some a) (hane : a ≠ "")
    (hmem : a ∈ removed) :
    (filesOf st' = [] → st'.activeFileId = none) ∧
    (filesOf st' ≠ [] → ∃ n, st'.activeFileId = some n.id ∧
      alookup st'.nodes n.id = some n ∧ n.type = NodeType.file) := by
  unfold deleteNode at hdel
  cases hn : alookup st.nodes id with
  | none =>
    simp only [hn, Option.some.injEq, Prod.mk.injEq] at hdel
    obtain ⟨-, hrem⟩ := hdel
    rw [← hrem] at hmem
    cases hmem
  | some node =>
    simp only [hn] at hdel
    cases hdo : (if node.type = NodeType.folder
        then getDescendantIds st id else some []) with
    | none => rw [hdo] at hdel; cases hdel
    | some ds =>
      rw [hdo] at hdel
      simp only [Option.some.injEq, Prod.mk.injEq] at hdel
      obtain ⟨hst', hrem⟩ := hdel
      subst hrem
      subst hst'
      have hact1 : (removeMany st (id :: ds)).activeFileId = some a := by
        rw [removeMany_active, ha]
      have hrep : repairActive (removeMany st (id :: ds)) (id :: ds) =
          FsStore.setActiveFileId (removeMany st (id :: ds))
            ((filesOf (removeMany st (id :: ds))).head?.map (·.id)) :=
        repairActive_active_hit hact1 hane hmem
      have hwf1 : WF (removeMany st (id :: ds)) := hwf.removeMany_pres _
      have hnodes : (repairActive (removeMany st (id :: ds))
          (id :: ds)).nodes = (removeMany st (id :: ds)).nodes :=
        repairActive_nodes _ _
      have hfiles : filesOf (repairActive (removeMany st (id :: ds))
          (id :: ds)) = filesOf (removeMany st (id :: ds)) := by
        unfold filesOf
        rw [hnodes]
      constructor
      · intro hempty
        rw [hfiles] at hempty
        rw [hrep, hempty]
        rfl
      · intro hnon
        rw [hfiles] at hnon
        cases hfs : filesOf (removeMany st (id :: ds)) with
        | nil => exact absurd hfs hnon
        | cons n rest =>
          refine ⟨n, ?_, ?_, ?_⟩
          · rw [hrep, hfs]
            rfl
          · rw [hnodes]
            have hnmem : n ∈ filesOf (removeMany st (id :: ds)) := by
              rw [hfs]
              exact List.mem_cons_self _ _
            unfold filesOf at hnmem
            obtain ⟨hmap, -⟩ := List.mem_filter.mp hnmem
            obtain ⟨p, hp, hpn⟩ := List.mem_map.mp hmap
            obtain ⟨k, v⟩ := p
            have hkey : v.id = k := hwf1.2 (k, v) hp
            simp only at hpn
            subst hpn
            rw [hkey]
            exact mem_alookup hp hwf1.1
          · have hnmem : n ∈ filesOf (removeMany st (id :: ds)) := by
              rw [hfs]
              exact List.mem_cons_self _ _
            unfold filesOf at hnmem
            exact of_decide_eq_true (List.mem_filter.mp hnmem).2

theorem deleteNode_active_repair_witness :
    (WF c3store ∧
     deleteNode c3store "d" = some (c3afterDelete, ["d", "x"]) ∧
     c3store.activeFileId = some "x" ∧ "x" ≠ "" ∧
     "x" ∈ (["d", "x"] : List String)) ∧
    ((filesOf c3afterDelete = [] → c3afterDelete.activeFileId = none) ∧
     (filesOf c3afterDelete ≠ [] → ∃ n,
       c3afterDelete.activeFileId = some n.id ∧
       alookup c3afterDelete.nodes n.id = some n ∧
       n.type = NodeType.file)) :=
  ⟨⟨by decide, by decide, by decide, by decide, by decide⟩,
   deleteNode_active_repair c3store "d" c3afterDelete ["d", "x"] "x"
     (by decide) (by decide) (by decide) (by decide) (by decide)⟩

/-- **C9.**  With no filesystem key and the legacy content `"# Hello"`,
`migrateIfNeeded` returns a store with exactly one File node (named
`"My Notes.md"`, reflecting pre-existing content, at the root), content
mapping that File's id to `"# Hello"`, and that id active; with no legacy
content the single File gets the distinct default name `"Untitled.md"`
and empty content. -/
theorem migrateIfNeeded_legacy (parse : String → Option FileSystemStore)
    (id : String) (now : Nat) :
    (migrateIfNeeded none parse (some "# Hello") id now).nodes =
      [(id, { id := id, type := NodeType.file, name := "My Notes.md",
              parentId := none, createdAt := now, updatedAt := now,
              collapsed := false })] ∧
    (migrateIfNeeded none parse (some "# Hello") id now).content =
      [(id, "# Hello")] ∧
    (migrateIfNeeded none parse (some "# Hello") id now).activeFileId =
      some id ∧
    (migrateIfNeeded none parse none id now).nodes =
      [(id, { id := id, type := NodeType.file, name := "Untitled.md",
              parentId := none, createdAt := now, updatedAt := now,
              collapsed := false })] ∧
    (migrateIfNeeded none parse none id now).content = [(id, "")] ∧
    (migrateIfNeeded none parse none id now).activeFileId = some id ∧
    ("Untitled.md" : String) ≠ "My Notes.md" :=
  ⟨rfl, rfl, rfl, rfl, rfl, rfl, by decide⟩

theorem moveNode_cycle_guard_witness :
    (alookup c4store.nodes "p" = some c4outer ∧
     c4outer.type = NodeType.folder ∧
     getDescendantIds c4store "p" = some ["q"] ∧
     ("q" = "p" ∨ "q" ∈ (["q"] : List String))) ∧
    moveNode c4store "p" (some "q") 3 = some c4store :=
  ⟨⟨by decide, by decide, by decide, by decide⟩,
   moveNode_cycle_guard c4store "p" "q" c4outer ["q"] 3
     (by decide) (by decide) (by decide) (by decide)⟩

end Blankmd
